import Mathlib

/-!
Vajolet: the board position and its state stack.

A shallow embedding of `position.h` (class `Position` and its nested
`struct state`) and of the node logger of `searchLogger.cpp`.  Machine integers are natural numbers with explicit
reduction modulo the word size; reads from `std::vector` / `std::array`
return `Option`, `none` standing for an out-of-range access.
-/

namespace Vajolet

/-! ## Scalar types -/

/-- Number of values of `unsigned int`.  It is kept irreducible so that
terms such as `(x + UINT_W - 1) % UINT_W` are not unfolded numeral by
numeral; `UINT_W_eq` gives its value. -/
@[irreducible] def UINT_W : Nat := 2 ^ 32

/-- Type `bitMap`.  Modelled from the spec: its header is not among the
sources; "a 64-bit set of squares", kept as the number whose binary digits
are the members. -/
abbrev bitMap := Nat

/-- Type `tSquare`.  Modelled from the spec: tSquare.h is not among the
sources; an "integer identifier over the 64 board cells, plus a distinguished
none value". -/
abbrev tSquare := Nat

/-- Type `bitboardIndex`.  Modelled from the spec: bitBoardIndex.h is not
among the sources; "a combined piece-type+color identifier", "used both as an
array index and as a bitboard-set selector". -/
abbrev bitboardIndex := Nat

/-- Type `Score`.  Modelled from the spec: score.h is not among the sources;
scores are signed integers, and signed overflow has no defined behaviour in
the source language, so arithmetic on them is the one of the integers. -/
abbrev Score := Int

/-- Type `simdScore`.  Modelled from the spec: score.h is not among the
sources; "a four-way (white/black x opening/endgame) material score vector".
Component `i` of the source (`v[i]`) is field `vi`. -/
structure simdScore where
  v0 : Score
  v1 : Score
  v2 : Score
  v3 : Score
deriving DecidableEq, Repr

/-- Enumeration `Color`. -/
inductive Color where
  | white
  | black
deriving DecidableEq, Repr

/-- Numeric value of a `Color` enumerator (`white = 0`, `black = 1`). -/
def Color.toNat : Color → Nat
  | .white => 0
  | .black => 1

/-- Flags of a move.  Modelled from the spec: move.h is not among the
sources; a move is an "opaque encoding of origin square, destination square,
and flags (promotion piece, en-passant, castle)". -/
inductive MoveFlag where
  | fnone
  | fpromotion
  | fenpassant
  | fcastle
deriving DecidableEq, Repr

/-- Class `Move`.  Modelled from the spec: move.h is not among the sources;
a move is an "opaque encoding of origin square, destination square, and
flags (promotion piece, en-passant, castle)". -/
structure Move where
  bFrom : tSquare
  bTo : tSquare
  bFlags : MoveFlag
  bPromotion : Nat
deriving DecidableEq, Repr

/-- Accessor `Move::getTo`. -/
def Move.getTo (m : Move) : tSquare := m.bTo

/-- Accessor `Move::isEnPassantMove`. -/
def Move.isEnPassantMove (m : Move) : Bool := m.bFlags == MoveFlag.fenpassant

/-- Accessor `Move::isPromotionMove`. -/
def Move.isPromotionMove (m : Move) : Bool := m.bFlags == MoveFlag.fpromotion

/-- Enumeration `Position::eCastle`: a mask of castle rights; the values of
the type are combined with `|` and `&`, so it is kept as a number. -/
abbrev eCastle := Nat

/-- Enumerator `wCastleOO`. -/
def wCastleOO : eCastle := 1
/-- Enumerator `wCastleOOO`. -/
def wCastleOOO : eCastle := 2
/-- Enumerator `bCastleOO`. -/
def bCastleOO : eCastle := 4
/-- Enumerator `bCastleOOO`. -/
def bCastleOOO : eCastle := 8
/-- Enumerator `castleOO = wCastleOO`. -/
def castleOO : eCastle := wCastleOO
/-- Enumerator `castleOOO = wCastleOOO`. -/
def castleOOO : eCastle := wCastleOOO

/-- Enumerators and static tables that `position.h` reads but other files
of the repository define (bitBoardIndex.h, tSquare.h, the table filled by
`Position::initScoreValues`); they are parameters of the embedding. -/
structure Tables where
  occupiedSquares : bitboardIndex
  empty : bitboardIndex
  whitePawns : bitboardIndex
  squareNone : tSquare
  blackTurn : Nat
  pieceValue : List simdScore

/-! ## Single-precision arithmetic

`getGamePhase` interpolates in `float`.  The operations it uses are given
their IEEE-754 binary32 meaning: the exact result, rounded to the nearest
representable value, ties to even.  Values are kept as rationals; overflow to
infinity is not represented (the operands met stay far below it). -/

/-- Nearest integer to a rational, ties to even. -/
def roundHalfEven (t : ℚ) : Int :=
  let f : Int := ⌊t⌋
  let r : ℚ := t - f
  if r < 1 / 2 then f
  else if 1 / 2 < r then f + 1
  else if f % 2 = 0 then f else f + 1

/-- Nearest `float` to a rational: 24 significant bits, least exponent
`-126`. -/
def f32Round (q : ℚ) : ℚ :=
  if q = 0 then 0
  else
    let e : Int := max (Int.log 2 |q|) (-126)
    let ulp : ℚ := (2 : ℚ) ^ (e - 23)
    (roundHalfEven (q / ulp) : ℚ) * ulp

/-- Conversion `(float) i` of an integer. -/
def f32OfInt (i : Int) : ℚ := f32Round (i : ℚ)

/-- Product of two `float`s. -/
def f32Mul (a b : ℚ) : ℚ := f32Round (a * b)

/-- Quotient of two `float`s. -/
def f32Div (a b : ℚ) : ℚ := f32Round (a / b)

/-- Conversion `(unsigned int) x` of a `float`: truncation toward zero,
defined only when the truncated value fits the target type. -/
def f32ToUInt (x : ℚ) : Option Nat :=
  if -1 < x ∧ x < (UINT_W : ℚ) then some (Int.toNat ⌊x⌋) else none

/-! ## `struct state` -/

/-- Structure `Position::state`, one snapshot of the per-ply metadata. -/
structure state where
  key : Nat
  pawnKey : Nat
  materialKey : Nat
  nonPawnMaterial : simdScore
  nextMove : Nat
  epSquare : tSquare
  fiftyMoveCnt : Nat
  pliesFromNull : Nat
  capturedPiece : bitboardIndex
  material : simdScore
  checkingSquares : List bitMap
  hiddenCheckersCandidate : bitMap
  pinnedPieces : bitMap
  _castleRights : eCastle
  _currentMove : Move
  _checkers : bitMap
deriving DecidableEq, Repr

/-- Bitwise complement `~c` of an `int`, as a 32-bit pattern. -/
def bitNot32 (c : Nat) : Nat := (UINT_W - 1) ^^^ (c % UINT_W)

/-- Static method `state::calcCastleRight`: `eCastle( cr << (2 * c) )`. -/
def state.calcCastleRight (cr : eCastle) (c : Color) : eCastle :=
  cr <<< (2 * c.toNat)

/-- Method `state::hasCastleRight(cr)`: `_castleRights & cr`, as `bool`. -/
def state.hasCastleRight (st : state) (cr : eCastle) : Bool :=
  (st._castleRights &&& cr) != 0

/-- Method `state::hasCastleRight(cr, c)`:
`_castleRights & calcCastleRight(cr, c)`, as `bool`. -/
def state.hasCastleRightOf (st : state) (cr : eCastle) (c : Color) : Bool :=
  (st._castleRights &&& state.calcCastleRight cr c) != 0

/-- Method `state::getCastleRights`. -/
def state.getCastleRights (st : state) : eCastle := st._castleRights

/-- Method `state::hasCastleRights`: `_castleRights`, as `bool`. -/
def state.hasCastleRights (st : state) : Bool := st._castleRights != 0

/-- Method `state::clearCastleRight()`: `_castleRights = (eCastle)0`. -/
def state.clearCastleRightAll (st : state) : state :=
  { st with _castleRights := 0 }

/-- Method `state::clearCastleRight(c)`: `_castleRights & ( ~c )`. -/
def state.clearCastleRight (st : state) (c : eCastle) : state :=
  { st with _castleRights := st._castleRights &&& bitNot32 c }

/-- Method `state::setCastleRight(c)`: `_castleRights | c`. -/
def state.setCastleRight (st : state) (c : eCastle) : state :=
  { st with _castleRights := st._castleRights ||| c }

/-- Type `pawnTable`.  Modelled from the spec: its header is not among the
sources; "a per-instance auxiliary cache (pawn-structure evaluation cache)",
kept here as the list of its slots. -/
structure pawnTable where
  slots : List Nat
deriving DecidableEq, Repr

/-! ## `class Position` -/

/-- Data members of `Position`.  The pointers `Us` and `Them` point into
`bitBoard`; each is kept as the index of the element it points at. -/
structure Position where
  ply : Nat
  pawnHashTable : pawnTable
  stateInfo : List state
  squares : List bitboardIndex
  bitBoard : List bitMap
  Us : Nat
  Them : Nat
deriving DecidableEq, Repr

/-- Method `Position::getStateSize`: the vector size converted to
`unsigned int`. -/
def getStateSize (p : Position) : Nat := p.stateInfo.length % UINT_W

/-- Method `Position::getPly`. -/
def getPly (p : Position) : Nat := p.ply

/-- Method `Position::getActualStateConst`: `stateInfo.back()`. -/
def getActualStateConst (p : Position) : Option state := p.stateInfo.getLast?

/-- Method `Position::getActualState`: `stateInfo.back()`. -/
def getActualState (p : Position) : Option state := p.stateInfo.getLast?

/-- Method `Position::getState`: `stateInfo[n]`. -/
def getState (p : Position) (n : Nat) : Option state := p.stateInfo[n]?

/-- Method `Position::insertState`: `stateInfo.emplace_back(s)`. -/
def insertState (p : Position) (s : state) : Position :=
  { p with stateInfo := p.stateInfo ++ [s] }

/-- Method `Position::removeState`: `stateInfo.pop_back()`, which has no
defined behaviour on an empty vector. -/
def removeState (p : Position) : Option Position :=
  match p.stateInfo with
  | [] => none
  | _ :: _ => some { p with stateInfo := p.stateInfo.dropLast }

/-- Method `Position::undoNullMove`: `--ply; removeState(); std::swap(Us, Them);`
(the consistency check of diagnostic builds is a `const` call and is left
out). -/
def undoNullMove (p : Position) : Option Position :=
  let p1 : Position := { p with ply := (p.ply + UINT_W - 1) % UINT_W }
  match removeState p1 with
  | none => none
  | some p2 => some { p2 with Us := p2.Them, Them := p2.Us }

/-- Method `Position::doNullMove`.  Modelled from the spec: its body is in
position.cpp, which is not among the sources; it "pass[es] the turn without
moving a piece; clears en-passant, increments ply/plies-since-null, swaps the
our/their view, but does not touch the fifty-move counter or castle rights",
and the state it produces is pushed on the stack. -/
def doNullMove (T : Tables) (p : Position) : Option Position :=
  match getActualStateConst p with
  | none => none
  | some cur =>
    let x : state :=
      { cur with
          epSquare := T.squareNone
          pliesFromNull := (cur.pliesFromNull + 1) % UINT_W
          nextMove := T.blackTurn - cur.nextMove }
    let p1 : Position := insertState p x
    some { p1 with ply := (p1.ply + 1) % UINT_W, Us := p1.Them, Them := p1.Us }

/-- Method `Position::getEpSquare`. -/
def getEpSquare (p : Position) : Option tSquare :=
  (getActualStateConst p).map (fun st => st.epSquare)

/-- Method `Position::getCastleRights`. -/
def getCastleRights (p : Position) : Option eCastle :=
  (getActualStateConst p).map (fun st => st.getCastleRights)

/-- Method `Position::getOccupationBitmap`: `bitBoard[occupiedSquares]`. -/
def getOccupationBitmap (T : Tables) (p : Position) : Option bitMap :=
  p.bitBoard[T.occupiedSquares]?

/-- Method `Position::getPieceAt`: `squares[sq]`. -/
def getPieceAt (p : Position) (sq : tSquare) : Option bitboardIndex :=
  p.squares[sq]?

/-- Method `Position::getAttackersTo(to)`:
`getAttackersTo(to, bitBoard[occupiedSquares])`.  The two-argument overload is
only declared in `position.h`; it is the parameter `attackersTo`. -/
def getAttackersTo (attackersTo : Position → tSquare → bitMap → bitMap)
    (T : Tables) (p : Position) (sq : tSquare) : Option bitMap :=
  match p.bitBoard[T.occupiedSquares]? with
  | none => none
  | some occ => some (attackersTo p sq occ)

/-- Method `Position::getGamePhase`. -/
def getGamePhase (p : Position) : Option Nat :=
  match getActualStateConst p with
  | none => none
  | some st =>
    let opening : Int := 700000
    let endgame : Int := 100000
    let tot : Score := st.nonPawnMaterial.v0 + st.nonPawnMaterial.v2
    if tot > opening then some 0
    else if tot < endgame then some 65536
    else
      f32ToUInt (f32Mul (f32OfInt (opening - tot))
        (f32Div 65536 (f32OfInt (opening - endgame))))

/-- Method `Position::isCaptureMove`:
`squares[m.getTo()] != empty || m.isEnPassantMove()`. -/
def isCaptureMove (T : Tables) (p : Position) (m : Move) : Option Bool :=
  match p.squares[m.getTo]? with
  | none => none
  | some pc => some (pc != T.empty || m.isEnPassantMove)

/-- Method `Position::isCaptureMoveOrPromotion`:
`isCaptureMove(m) || m.isPromotionMove()`. -/
def isCaptureMoveOrPromotion (T : Tables) (p : Position) (m : Move) :
    Option Bool :=
  match isCaptureMove T p m with
  | none => none
  | some b => some (b || m.isPromotionMove)

/-- The four single castle rights. -/
def singleRights : List eCastle := [wCastleOO, wCastleOOO, bCastleOO, bCastleOOO]

/-- Helper `moreThanOneBit`.  Modelled from the spec: the header that defines
it is not among the sources; as its name says, it tells whether the set (a
`bitMap`, 64 bits) has more than one member. -/
def moreThanOneBit (b : bitMap) : Bool :=
  decide (1 < (List.range 64).countP (fun i => b.testBit i))

/-- Method `state::isInCheck`: `_checkers`, as `bool`. -/
def state.isInCheck (st : state) : Bool := st._checkers != 0

/-- Method `state::isInDoubleCheck`: `moreThanOneBit(_checkers)`. -/
def state.isInDoubleCheck (st : state) : Bool := moreThanOneBit st._checkers

/-- Method `state::getCheckers`. -/
def state.getCheckers (st : state) : bitMap := st._checkers

/-- Method `state::setCheckers`: `_checkers = b`. -/
def state.setCheckers (st : state) (b : bitMap) : state :=
  { st with _checkers := b }

/-- Method `state::addCheckers`: `_checkers |= b`. -/
def state.addCheckers (st : state) (b : bitMap) : state :=
  { st with _checkers := st._checkers ||| b }

/-- Method `Position::isInCheck`: `getActualStateConst().getCheckers()`, as
`bool`. -/
def isInCheck (p : Position) : Option Bool :=
  match getActualStateConst p with
  | none => none
  | some st => some (st.getCheckers != 0)

/-! ## The search log (`searchLogger.cpp`) -/

/-- Type `ttEntry`.  Modelled from the spec: transposition.h is not among the
sources; the log reads five accessors of an entry, kept here as its fields. -/
structure ttEntry where
  bValue : Int
  bStaticValue : Int
  bPackedMove : Nat
  bDepth : Int
  bType : Int
deriving DecidableEq, Repr

/-- Accessor `ttEntry::getValue`. -/
def ttEntry.getValue (tte : ttEntry) : Int := tte.bValue

/-- Accessor `ttEntry::getStaticValue`. -/
def ttEntry.getStaticValue (tte : ttEntry) : Int := tte.bStaticValue

/-- Accessor `ttEntry::getPackedMove`. -/
def ttEntry.getPackedMove (tte : ttEntry) : Nat := tte.bPackedMove

/-- Accessor `ttEntry::getDepth`. -/
def ttEntry.getDepth (tte : ttEntry) : Int := tte.bDepth

/-- Accessor `ttEntry::getType`. -/
def ttEntry.getType (tte : ttEntry) : Int := tte.bType

/-- Functions that `searchLogger.cpp` calls but other files of the repository
define: `UciManager::displayUci` (the text of a move) and the constructor of a
`Move` from its packed form; they are parameters of the embedding. -/
structure LogTables where
  displayUci : Move → Bool → List Char
  moveOfPacked : Nat → Move

/-- Text that `operator<<` prints for a `long long`: the decimal digits, after
a minus sign for a negative number. -/
def decimal : Int → List Char
  | Int.ofNat n => Nat.toDigits 10 n
  | Int.negSucc n => '-' :: Nat.toDigits 10 (n + 1)

/-- Class `logWriter`: member `_log` is the output stream, kept as the text
sent to it so far (the stream is taken to accept every write). -/
structure logWriter where
  _log : List Char
deriving DecidableEq, Repr

/-- Method `logWriter::writeString`: `_log << st`. -/
def logWriter.writeString (lw : logWriter) (st : List Char) : logWriter :=
  { _log := lw._log ++ st }

/-- Method `logWriter::writeChar`: `_log << c`. -/
def logWriter.writeChar (lw : logWriter) (c : Char) : logWriter :=
  { _log := lw._log ++ [c] }

/-- Method `logWriter::writeNumber`: `_log << x`. -/
def logWriter.writeNumber (lw : logWriter) (x : Int) : logWriter :=
  { _log := lw._log ++ decimal x }

/-- Method `logWriter::writeMove`: `_log << UciManager::displayUci(m, false)`. -/
def logWriter.writeMove (L : LogTables) (lw : logWriter) (m : Move) : logWriter :=
  { _log := lw._log ++ L.displayUci m false }

/-- Class `logNode`: the writer it refers to and its ply. -/
structure logNode where
  _lw : logWriter
  _ply : Nat
deriving DecidableEq, Repr

/-- Loop of `logNode::_indentate`:
`for(unsigned int i = 0; i < ply; ++i) {_lw.writeChar('\t');}`. -/
def indentLoop (lw : logWriter) : Nat → logWriter
  | 0 => lw
  | n + 1 => indentLoop (lw.writeChar '\t') n

/-- Method `logNode::_indentate`: a newline, then `ply` tabs. -/
def logNode._indentate (lw : logWriter) (ply : Nat) : logWriter :=
  indentLoop (lw.writeChar '\n') ply

/-- Constructor `logNode::logNode(lw, ply, depth, alpha, beta)`. -/
def logNode.create (lw : logWriter) (ply : Nat) (depth : Int) (alpha beta : Score) :
    logNode :=
  let w0 := logNode._indentate lw ply
  let w1 := w0.writeChar '{'
  let w2 := w1.writeNumber (ply : Int)
  let w3 := w2.writeChar ','
  let w4 := w3.writeNumber depth
  let w5 := w4.writeChar ','
  let w6 := w5.writeNumber alpha
  let w7 := w6.writeChar ','
  let w8 := w7.writeNumber beta
  let w9 := w8.writeChar ';'
  { _lw := w9, _ply := ply }

/-- Destructor `logNode::~logNode`; the result is the writer it leaves. -/
def logNode.destroy (n : logNode) : logWriter :=
  (logNode._indentate n._lw n._ply).writeChar '}'

/-- Start of every event writer: `_indentate(_ply + 1)`, the sum taken in
`unsigned int`. -/
def logNode.indentEvent (n : logNode) : logWriter :=
  logNode._indentate n._lw ((n._ply + 1) % UINT_W)

/-- Method `logNode::testIsDraw`. -/
def logNode.testIsDraw (n : logNode) : logNode :=
  { n with _lw := n.indentEvent.writeString "testIsDraw".toList }

/-- Method `logNode::testMateDistancePruning`. -/
def logNode.testMateDistancePruning (n : logNode) : logNode :=
  { n with _lw := n.indentEvent.writeString "testMateDistancePruning".toList }

/-- Method `logNode::testCheckTablebase`. -/
def logNode.testCheckTablebase (n : logNode) : logNode :=
  { n with _lw := n.indentEvent.writeString "testcheckTablebase".toList }

/-- Method `logNode::testCanUseTT`. -/
def logNode.testCanUseTT (n : logNode) : logNode :=
  { n with _lw := n.indentEvent.writeString "testCanUseTT".toList }

/-- Method `logNode::testStandPat`. -/
def logNode.testStandPat (n : logNode) : logNode :=
  { n with _lw := n.indentEvent.writeString "testStandPat".toList }

/-- Method `logNode::testMated`. -/
def logNode.testMated (n : logNode) : logNode :=
  { n with _lw := n.indentEvent.writeString "is mated?".toList }

/-- Method `logNode::testMove`. -/
def logNode.testMove (L : LogTables) (n : logNode) (m : Move) : logNode :=
  { n with _lw := (n.indentEvent.writeString "testing move ".toList).writeMove L m }

/-- Method `logNode::skipMove`. -/
def logNode.skipMove (n : logNode) : logNode :=
  { n with _lw := n.indentEvent.writeString "...skipped".toList }

/-- Method `logNode::raisedAlpha`. -/
def logNode.raisedAlpha (n : logNode) : logNode :=
  { n with _lw := n.indentEvent.writeString "raised alpha".toList }

/-- Method `logNode::isImproving`. -/
def logNode.isImproving (n : logNode) : logNode :=
  { n with _lw := n.indentEvent.writeString "is improving".toList }

/-- Method `logNode::raisedbestScore`. -/
def logNode.raisedbestScore (n : logNode) : logNode :=
  { n with _lw := n.indentEvent.writeString "raised bestScore".toList }

/-- Method `logNode::logReturnValue`. -/
def logNode.logReturnValue (n : logNode) (val : Score) : logNode :=
  { n with _lw := (n.indentEvent.writeString "return: ".toList).writeNumber val }

/-- Method `logNode::logTTprobe`. -/
def logNode.logTTprobe (L : LogTables) (n : logNode) (tte : ttEntry) : logNode :=
  let w0 := n.indentEvent
  let w1 := w0.writeString "TTprobe v: ".toList
  let w2 := w1.writeNumber tte.getValue
  let w3 := w2.writeString " sv: ".toList
  let w4 := w3.writeNumber tte.getStaticValue
  let w5 := w4.writeString " move: ".toList
  let w6 := w5.writeMove L (L.moveOfPacked tte.getPackedMove)
  let w7 := w6.writeString " depth: ".toList
  let w8 := w7.writeNumber tte.getDepth
  let w9 := w8.writeString " type: ".toList
  let w10 := w9.writeNumber tte.getType
  { n with _lw := w10 }

/-- Method `logNode::calcStaticEval`. -/
def logNode.calcStaticEval (n : logNode) (eval : Score) : logNode :=
  { n with _lw := (n.indentEvent.writeString "Static Eval: ".toList).writeNumber eval }

/-- Method `logNode::refineEval`. -/
def logNode.refineEval (n : logNode) (eval : Score) : logNode :=
  { n with _lw := (n.indentEvent.writeString "refined Eval: ".toList).writeNumber eval }

/-- Method `logNode::calcBestScore`. -/
def logNode.calcBestScore (n : logNode) (eval : Score) : logNode :=
  { n with _lw := (n.indentEvent.writeString "BestScore: ".toList).writeNumber eval }

/-- One call of an event writer of `logNode`, with its arguments. -/
inductive LogEvent where
  | testIsDraw
  | testMateDistancePruning
  | testCheckTablebase
  | testCanUseTT
  | testStandPat
  | testMated
  | testMove (m : Move)
  | skipMove
  | raisedAlpha
  | isImproving
  | raisedbestScore
  | logReturnValue (val : Score)
  | logTTprobe (tte : ttEntry)
  | calcStaticEval (eval : Score)
  | refineEval (eval : Score)
  | calcBestScore (eval : Score)
deriving DecidableEq, Repr

/-- Effect of one event call on a node. -/
def logNode.call (L : LogTables) (n : logNode) : LogEvent → logNode
  | .testIsDraw => n.testIsDraw
  | .testMateDistancePruning => n.testMateDistancePruning
  | .testCheckTablebase => n.testCheckTablebase
  | .testCanUseTT => n.testCanUseTT
  | .testStandPat => n.testStandPat
  | .testMated => n.testMated
  | .testMove m => n.testMove L m
  | .skipMove => n.skipMove
  | .raisedAlpha => n.raisedAlpha
  | .isImproving => n.isImproving
  | .raisedbestScore => n.raisedbestScore
  | .logReturnValue val => n.logReturnValue val
  | .logTTprobe tte => n.logTTprobe L tte
  | .calcStaticEval eval => n.calcStaticEval eval
  | .refineEval eval => n.refineEval eval
  | .calcBestScore eval => n.calcBestScore eval

/-- Life of one node: construction on the writer `lw`, the event calls in
order, destruction; the result is the writer it leaves. -/
def runNode (L : LogTables) (lw : logWriter) (ply : Nat) (depth : Int)
    (alpha beta : Score) (events : List LogEvent) : logWriter :=
  (events.foldl (fun n e => n.call L e) (logNode.create lw ply depth alpha beta)).destroy

/-- Message of an event: what its line holds after the indentation. -/
def LogEvent.message (L : LogTables) : LogEvent → List Char
  | .testIsDraw => "testIsDraw".toList
  | .testMateDistancePruning => "testMateDistancePruning".toList
  | .testCheckTablebase => "testcheckTablebase".toList
  | .testCanUseTT => "testCanUseTT".toList
  | .testStandPat => "testStandPat".toList
  | .testMated => "is mated?".toList
  | .testMove m => "testing move ".toList ++ L.displayUci m false
  | .skipMove => "...skipped".toList
  | .raisedAlpha => "raised alpha".toList
  | .isImproving => "is improving".toList
  | .raisedbestScore => "raised bestScore".toList
  | .logReturnValue val => "return: ".toList ++ decimal val
  | .logTTprobe tte =>
    "TTprobe v: ".toList ++ decimal tte.getValue ++ " sv: ".toList
      ++ decimal tte.getStaticValue ++ " move: ".toList
      ++ L.displayUci (L.moveOfPacked tte.getPackedMove) false ++ " depth: ".toList
      ++ decimal tte.getDepth ++ " type: ".toList ++ decimal tte.getType
  | .calcStaticEval eval => "Static Eval: ".toList ++ decimal eval
  | .refineEval eval => "refined Eval: ".toList ++ decimal eval
  | .calcBestScore eval => "BestScore: ".toList ++ decimal eval

/-- Opening line of a node: a newline, `p` tabs and `{p,depth,alpha,beta;`. -/
def nodeHeader (p : Nat) (depth : Int) (alpha beta : Score) : List Char :=
  '\n' :: List.replicate p '\t' ++ '{' :: decimal (p : Int) ++ ',' :: decimal depth
    ++ ',' :: decimal alpha ++ ',' :: decimal beta ++ [';']

/-- Closing line of a node: a newline, `p` tabs and the closing brace. -/
def nodeFooter (p : Nat) : List Char :=
  '\n' :: List.replicate p '\t' ++ ['}']

/-- Line of an event at indentation `k`: a newline, `k` tabs and the
message. -/
def eventLine (L : LogTables) (k : Nat) (e : LogEvent) : List Char :=
  '\n' :: List.replicate k '\t' ++ e.message L

/-! ## Sample data -/

/-- Sample enumerators and piece values: sixteen piece classes, `empty` and
`occupiedSquares` at index 0, white pawns at 6, black pawns at 14, square
"none" at 64. -/
def sampleTables : Tables :=
  { occupiedSquares := 0
    empty := 0
    whitePawns := 6
    squareNone := 64
    blackTurn := 8
    pieceValue :=
      [⟨0, 0, 0, 0⟩, ⟨3000000, 3000000, 0, 0⟩, ⟨120000, 120000, 0, 0⟩,
       ⟨60000, 60000, 0, 0⟩, ⟨35000, 35000, 0, 0⟩, ⟨34000, 34000, 0, 0⟩,
       ⟨10000, 10000, 0, 0⟩, ⟨0, 0, 0, 0⟩, ⟨0, 0, 0, 0⟩,
       ⟨3000000, 3000000, 0, 0⟩, ⟨120000, 120000, 0, 0⟩, ⟨60000, 60000, 0, 0⟩,
       ⟨35000, 35000, 0, 0⟩, ⟨34000, 34000, 0, 0⟩, ⟨10000, 10000, 0, 0⟩,
       ⟨0, 0, 0, 0⟩] }

/-- Sample state: white to move, en-passant target d6 (square 43), all castle
rights. -/
def sampleState : state :=
  { key := 11
    pawnKey := 12
    materialKey := 13
    nonPawnMaterial := ⟨200000, 210000, 200000, 210000⟩
    nextMove := 0
    epSquare := 43
    fiftyMoveCnt := 7
    pliesFromNull := 3
    capturedPiece := 0
    material := ⟨230000, 240000, 230000, 240000⟩
    checkingSquares := List.replicate 16 0
    hiddenCheckersCandidate := 0
    pinnedPieces := 0
    _castleRights := 15
    _currentMove := ⟨51, 35, MoveFlag.fnone, 0⟩
    _checkers := 0 }

/-- Sample board: white king e1 (4), white pawn e5 (36), black king e8 (60),
black pawns d5 (35) and f6 (45). -/
def sampleSquares : List bitboardIndex :=
  (((((List.replicate 64 0).set 4 1).set 36 6).set 60 9).set 35 14).set 45 14

/-- Sample bitboards matching `sampleSquares`. -/
def sampleBitBoard : List bitMap :=
  [2 ^ 4 + 2 ^ 36 + 2 ^ 60 + 2 ^ 35 + 2 ^ 45, 2 ^ 4, 0, 0, 0, 0, 2 ^ 36, 2 ^ 4 + 2 ^ 36,
   0, 2 ^ 60, 0, 0, 0, 0, 2 ^ 35 + 2 ^ 45, 2 ^ 60 + 2 ^ 35 + 2 ^ 45]

/-- Sample position with a single state on the stack. -/
def samplePosition : Position :=
  { ply := 5
    pawnHashTable := ⟨[]⟩
    stateInfo := [sampleState]
    squares := sampleSquares
    bitBoard := sampleBitBoard
    Us := 0
    Them := 8 }

/-- Sample position with two states on the stack. -/
def samplePosition2 : Position :=
  { samplePosition with
      ply := 6
      stateInfo := [{ sampleState with epSquare := 64, fiftyMoveCnt := 6 }, sampleState] }

/-- Sample move: e5 takes d6 en passant. -/
def sampleEnPassant : Move := ⟨36, 43, MoveFlag.fenpassant, 0⟩

/-- Sample stand-in for the two-argument `getAttackersTo`. -/
def sampleAttackers (p : Position) (sq : tSquare) (occ : bitMap) : bitMap :=
  (p.bitBoard.getD 1 0 ||| p.bitBoard.getD 9 0) &&& occ &&& (7 <<< (sq - 1))

/-- Sample stand-ins for `displayUci` and the unpacking of a move: the text
of a move is the file letter and rank digit of its two squares. -/
def sampleLogTables : LogTables :=
  { displayUci := fun m _ =>
      ["abcdefgh".toList.getD (m.bFrom % 8) 'a', "12345678".toList.getD (m.bFrom / 8 % 8) '1',
       "abcdefgh".toList.getD (m.bTo % 8) 'a', "12345678".toList.getD (m.bTo / 8 % 8) '1']
    moveOfPacked := fun n => ⟨n % 64, n / 64 % 64, MoveFlag.fnone, 0⟩ }

/-- Sample sequence of event calls. -/
def sampleEvents : List LogEvent :=
  [LogEvent.testIsDraw, LogEvent.testMove sampleEnPassant, LogEvent.logReturnValue (-25)]

/-- Sample state in double check: checkers on d6 (43) and f6 (45). -/
def sampleCheckedState : state :=
  { sampleState with _checkers := 2 ^ 43 + 2 ^ 45 }

/-! ## The state stack: auxiliary facts -/

/-- Value of `UINT_W`. -/
theorem UINT_W_eq : UINT_W = 4294967296 := by
  unfold UINT_W
  rfl

/-- A stack with at least one element is some stack followed by its top. -/
theorem stack_split (l : List state) (h : 1 ≤ l.length) :
    ∃ (r : List state) (top : state), l = r ++ [top] := by
  have hne : l ≠ [] := by
    intro h0
    subst h0
    simp at h
  exact ⟨l.dropLast, l.getLast hne, (List.dropLast_append_getLast hne).symm⟩

/-- Two positions with the same data members are equal. -/
theorem Position.eq_of_fields (a b : Position) (h1 : a.ply = b.ply)
    (h2 : a.pawnHashTable = b.pawnHashTable) (h3 : a.stateInfo = b.stateInfo)
    (h4 : a.squares = b.squares) (h5 : a.bitBoard = b.bitBoard)
    (h6 : a.Us = b.Us) (h7 : a.Them = b.Them) : a = b := by
  cases a
  cases b
  simp only [Position.mk.injEq]
  exact ⟨h1, h2, h3, h4, h5, h6, h7⟩

/-- Popping a stack that ends in `top` leaves what was below it. -/
theorem removeState_concat (p : Position) (l : List state) (top : state)
    (h : p.stateInfo = l ++ [top]) :
    removeState p = some { p with stateInfo := l } := by
  unfold removeState
  cases hs : p.stateInfo with
  | nil => rw [hs] at h; simp at h
  | cons a t =>
    simp only
    rw [← hs, h, List.dropLast_concat]

/-- Closed form of `undoNullMove` on a stack that ends in `top`. -/
theorem undoNullMove_concat (p : Position) (l : List state) (top : state)
    (h : p.stateInfo = l ++ [top]) :
    undoNullMove p = some
      { p with
          ply := (p.ply + UINT_W - 1) % UINT_W
          stateInfo := l
          Us := p.Them
          Them := p.Us } := by
  unfold undoNullMove
  simp only
  rw [removeState_concat { p with ply := (p.ply + UINT_W - 1) % UINT_W } l top h]

/-- Field by field description of `undoNullMove` on a stack that ends in
`top`. -/
theorem undoNullMove_fields (p : Position) (l : List state) (top : state)
    (h : p.stateInfo = l ++ [top]) :
    ∃ p' : Position, undoNullMove p = some p' ∧
      p'.ply = (p.ply + UINT_W - 1) % UINT_W ∧
      p'.pawnHashTable = p.pawnHashTable ∧ p'.stateInfo = l ∧
      p'.squares = p.squares ∧ p'.bitBoard = p.bitBoard ∧
      p'.Us = p.Them ∧ p'.Them = p.Us :=
  ⟨_, undoNullMove_concat p l top h, rfl, rfl, rfl, rfl, rfl, rfl, rfl⟩

/-- Closed form of `doNullMove` on a stack whose current state is `cur`. -/
theorem doNullMove_eq (T : Tables) (p : Position) (l : List state) (cur : state)
    (h : p.stateInfo = l ++ [cur]) :
    doNullMove T p = some
      { p with
          ply := (p.ply + 1) % UINT_W
          stateInfo := p.stateInfo ++
            [{ cur with
                epSquare := T.squareNone
                pliesFromNull := (cur.pliesFromNull + 1) % UINT_W
                nextMove := T.blackTurn - cur.nextMove }]
          Us := p.Them
          Them := p.Us } := by
  unfold doNullMove getActualStateConst insertState
  rw [h]
  simp

/-- Field by field description of `doNullMove` on a stack whose current state
is `cur`. -/
theorem doNullMove_fields (T : Tables) (p : Position) (l : List state) (cur : state)
    (h : p.stateInfo = l ++ [cur]) :
    ∃ mid : Position, doNullMove T p = some mid ∧
      mid.ply = (p.ply + 1) % UINT_W ∧
      mid.pawnHashTable = p.pawnHashTable ∧
      mid.stateInfo = p.stateInfo ++
        [{ cur with
            epSquare := T.squareNone
            pliesFromNull := (cur.pliesFromNull + 1) % UINT_W
            nextMove := T.blackTurn - cur.nextMove }] ∧
      mid.squares = p.squares ∧ mid.bitBoard = p.bitBoard ∧
      mid.Us = p.Them ∧ mid.Them = p.Us :=
  ⟨_, doNullMove_eq T p l cur h, rfl, rfl, rfl, rfl, rfl, rfl, rfl⟩

/-! ## C1: frame of `undoNullMove` -/

/-- C1. On a position whose state stack holds at least two states,
`undoNullMove` succeeds and moves no piece and rewrites no history: the
bitboard array, the square map and the pawn cache are unchanged; exactly the
top state is removed (the old stack is the new one followed by `top`); every
remaining state reads as before, in particular the new current state `cur` is
the state that stood just below the top, with all its fields (fifty-move
counter and castle rights among them); `ply` is decremented in `unsigned int`
arithmetic (by exactly one when it was positive) and `Us` and `Them` are
exchanged. -/
theorem undoNullMove_frame (p : Position) (h : 2 ≤ p.stateInfo.length) :
    ∃ (p' : Position) (top cur : state),
      undoNullMove p = some p' ∧
      p'.bitBoard = p.bitBoard ∧ p'.squares = p.squares ∧
      p'.pawnHashTable = p.pawnHashTable ∧
      p.stateInfo = p'.stateInfo ++ [top] ∧
      (∀ n, n < p'.stateInfo.length → getState p' n = getState p n) ∧
      getActualStateConst p' = some cur ∧
      getState p (p.stateInfo.length - 2) = some cur ∧
      p'.ply = (p.ply + UINT_W - 1) % UINT_W ∧
      (0 < p.ply → p.ply < UINT_W → getPly p' + 1 = getPly p) ∧
      p'.Us = p.Them ∧ p'.Them = p.Us := by
  obtain ⟨r, top, hr⟩ := stack_split p.stateInfo (by omega)
  have hlen : p.stateInfo.length = r.length + 1 := by rw [hr]; simp
  obtain ⟨r', cur, hr'⟩ := stack_split r (by omega)
  obtain ⟨p', hu, hply, hpawn, hst, hsq, hbb, hus, hthem⟩ := undoNullMove_fields p r top hr
  have hidx : p.stateInfo.length - 2 = r'.length := by
    rw [hlen, hr']
    simp
  refine ⟨p', top, cur, hu, hbb, hsq, hpawn, ?_, ?_, ?_, ?_, hply, ?_, hus, hthem⟩
  · rw [hst]
    exact hr
  · intro n hn
    rw [hst] at hn
    simp only [getState, hst, hr]
    exact (List.getElem?_append_left hn).symm
  · simp [getActualStateConst, hst, hr']
  · simp only [getState]
    rw [hidx, hr, hr', List.getElem?_append_left (by simp), List.getElem?_concat_length]
  · intro h0 h1
    simp only [getPly]
    rw [hply]
    rw [UINT_W_eq] at h1 ⊢
    omega

/-- C1, at the sample position with two states on its stack. -/
theorem undoNullMove_frame_witness :
    2 ≤ samplePosition2.stateInfo.length ∧
    ∃ (p' : Position) (top cur : state),
      undoNullMove samplePosition2 = some p' ∧
      p'.bitBoard = samplePosition2.bitBoard ∧ p'.squares = samplePosition2.squares ∧
      p'.pawnHashTable = samplePosition2.pawnHashTable ∧
      samplePosition2.stateInfo = p'.stateInfo ++ [top] ∧
      (∀ n, n < p'.stateInfo.length → getState p' n = getState samplePosition2 n) ∧
      getActualStateConst p' = some cur ∧
      getState samplePosition2 (samplePosition2.stateInfo.length - 2) = some cur ∧
      p'.ply = (samplePosition2.ply + UINT_W - 1) % UINT_W ∧
      (0 < samplePosition2.ply → samplePosition2.ply < UINT_W →
        getPly p' + 1 = getPly samplePosition2) ∧
      p'.Us = samplePosition2.Them ∧ p'.Them = samplePosition2.Us :=
  ⟨by decide, undoNullMove_frame samplePosition2 (by decide)⟩

/-! ## C2: the null-move pair -/

/-- C2, as stated, fails at the sample position (en-passant target d6, ply 5):
after `doNullMove` followed by `undoNullMove` the en-passant square is not
cleared and `ply` is not one greater than before the pair. -/
theorem nullMovePair_ep_ply_counterexample :
    ∃ p' : Position,
      (doNullMove sampleTables samplePosition).bind undoNullMove = some p' ∧
      getEpSquare p' ≠ some sampleTables.squareNone ∧
      getPly p' ≠ (getPly samplePosition + 1) % UINT_W :=
  ⟨samplePosition, by with_unfolding_all rfl, by decide, by with_unfolding_all decide⟩

/-- C2, amended. For every position with a non-empty state stack,
`doNullMove` succeeds and yields a position `mid` in which the en-passant
square is cleared, `ply` is one greater, the views are swapped, the board is
the same and the fifty-move counter and castle rights are those of before;
`undoNullMove` applied to `mid` then gives back the position before the pair
in all its fields, the en-passant square and `ply` included. -/
theorem nullMovePair_restores (T : Tables) (p : Position)
    (hs : p.stateInfo ≠ []) (hp : p.ply < UINT_W) :
    ∃ mid : Position,
      doNullMove T p = some mid ∧
      getEpSquare mid = some T.squareNone ∧
      getPly mid = (getPly p + 1) % UINT_W ∧
      mid.Us = p.Them ∧ mid.Them = p.Us ∧
      mid.squares = p.squares ∧ mid.bitBoard = p.bitBoard ∧
      (getActualStateConst mid).map (fun s => s.fiftyMoveCnt)
        = (getActualStateConst p).map (fun s => s.fiftyMoveCnt) ∧
      (getActualStateConst mid).map (fun s => s.getCastleRights)
        = (getActualStateConst p).map (fun s => s.getCastleRights) ∧
      undoNullMove mid = some p := by
  have hlen : 1 ≤ p.stateInfo.length := by
    cases hc : p.stateInfo with
    | nil => exact absurd hc hs
    | cons a t => simp
  obtain ⟨l, cur, hl⟩ := stack_split p.stateInfo hlen
  obtain ⟨mid, hd, hply, hpawn, hst, hsq, hbb, hus, hthem⟩ := doNullMove_fields T p l cur hl
  obtain ⟨q, hu, hqply, hqpawn, hqst, hqsq, hqbb, hqus, hqthem⟩ :=
    undoNullMove_fields mid p.stateInfo _ hst
  refine ⟨mid, hd, ?_, ?_, hus, hthem, hsq, hbb, ?_, ?_, ?_⟩
  · simp [getEpSquare, getActualStateConst, hst]
  · simp only [getPly]
    exact hply
  · simp [getActualStateConst, hst, hl]
  · simp [getActualStateConst, hst, hl, state.getCastleRights]
  · rw [hu]
    congr 1
    apply Position.eq_of_fields
    · rw [hqply, hply]
      rw [UINT_W_eq] at hp ⊢
      omega
    · rw [hqpawn, hpawn]
    · exact hqst
    · rw [hqsq, hsq]
    · rw [hqbb, hbb]
    · rw [hqus, hthem]
    · rw [hqthem, hus]

/-- C2 amended, at the sample position. -/
theorem nullMovePair_restores_witness :
    samplePosition.stateInfo ≠ [] ∧ samplePosition.ply < UINT_W ∧
    ∃ mid : Position,
      doNullMove sampleTables samplePosition = some mid ∧
      getEpSquare mid = some sampleTables.squareNone ∧
      getPly mid = (getPly samplePosition + 1) % UINT_W ∧
      mid.Us = samplePosition.Them ∧ mid.Them = samplePosition.Us ∧
      mid.squares = samplePosition.squares ∧ mid.bitBoard = samplePosition.bitBoard ∧
      (getActualStateConst mid).map (fun s => s.fiftyMoveCnt)
        = (getActualStateConst samplePosition).map (fun s => s.fiftyMoveCnt) ∧
      (getActualStateConst mid).map (fun s => s.getCastleRights)
        = (getActualStateConst samplePosition).map (fun s => s.getCastleRights) ∧
      undoNullMove mid = some samplePosition :=
  ⟨by decide, by with_unfolding_all decide,
    nullMovePair_restores sampleTables samplePosition (by decide)
      (by with_unfolding_all decide)⟩

/-! ## C3: stack depth and ply -/

/-- C3. On a position whose state stack holds at least two states,
`undoNullMove` succeeds, the stack loses exactly one element and
`getStateSize()` and `getPly()` both decrease by one in `unsigned int`
arithmetic (by exactly one as numbers when the stack size fits the type,
respectively when `ply` was positive), so that the `unsigned int` difference
`getStateSize() - getPly()` is preserved (and the difference of the two
numbers as well when neither wraps); the stack stays non-empty and
`getActualStateConst()` is defined afterwards. -/
theorem undoNullMove_size_ply (p : Position) (h : 2 ≤ p.stateInfo.length)
    (hp : p.ply < UINT_W) :
    ∃ p' : Position,
      undoNullMove p = some p' ∧
      p'.stateInfo.length + 1 = p.stateInfo.length ∧
      (getStateSize p' + 1) % UINT_W = getStateSize p ∧
      (p.stateInfo.length < UINT_W → getStateSize p' + 1 = getStateSize p) ∧
      getPly p' < UINT_W ∧ (getPly p' + 1) % UINT_W = getPly p ∧
      (0 < p.ply → getPly p' + 1 = getPly p) ∧
      (getStateSize p' + UINT_W - getPly p') % UINT_W
        = (getStateSize p + UINT_W - getPly p) % UINT_W ∧
      (0 < p.ply → p.stateInfo.length < UINT_W →
        (getStateSize p' : Int) - (getPly p' : Int)
          = (getStateSize p : Int) - (getPly p : Int)) ∧
      1 ≤ p'.stateInfo.length ∧
      (∃ cur, getActualStateConst p' = some cur) := by
  obtain ⟨r, top, hr⟩ := stack_split p.stateInfo (by omega)
  have hlen : p.stateInfo.length = r.length + 1 := by rw [hr]; simp
  obtain ⟨r', cur, hr'⟩ := stack_split r (by omega)
  obtain ⟨p', hu, hply, hpawn, hst, hsq, hbb, hus, hthem⟩ := undoNullMove_fields p r top hr
  refine ⟨p', hu, ?_, ?_, ?_, ?_, ?_, ?_, ?_, ?_, ?_, ?_⟩
  · rw [hst, hlen]
  · simp only [getStateSize]
    rw [hst, hlen, UINT_W_eq]
    omega
  · intro hlt
    simp only [getStateSize]
    rw [hst, hlen]
    rw [hlen] at hlt
    rw [UINT_W_eq] at hlt ⊢
    omega
  · simp only [getPly]
    rw [hply, UINT_W_eq]
    omega
  · simp only [getPly]
    rw [hply]
    rw [UINT_W_eq] at hp ⊢
    omega
  · intro h0
    simp only [getPly]
    rw [hply]
    rw [UINT_W_eq] at hp ⊢
    omega
  · simp only [getStateSize, getPly]
    rw [hst, hlen, hply]
    rw [UINT_W_eq] at hp ⊢
    omega
  · intro h0 hlt
    simp only [getStateSize, getPly]
    rw [hst, hlen, hply]
    rw [hlen] at hlt
    rw [UINT_W_eq] at hp hlt ⊢
    omega
  · rw [hst]
    omega
  · exact ⟨cur, by simp [getActualStateConst, hst, hr']⟩

/-- C3, at the sample position with two states on its stack. -/
theorem undoNullMove_size_ply_witness :
    2 ≤ samplePosition2.stateInfo.length ∧ samplePosition2.ply < UINT_W ∧
    ∃ p' : Position,
      undoNullMove samplePosition2 = some p' ∧
      p'.stateInfo.length + 1 = samplePosition2.stateInfo.length ∧
      (getStateSize p' + 1) % UINT_W = getStateSize samplePosition2 ∧
      (samplePosition2.stateInfo.length < UINT_W →
        getStateSize p' + 1 = getStateSize samplePosition2) ∧
      getPly p' < UINT_W ∧ (getPly p' + 1) % UINT_W = getPly samplePosition2 ∧
      (0 < samplePosition2.ply → getPly p' + 1 = getPly samplePosition2) ∧
      (getStateSize p' + UINT_W - getPly p') % UINT_W
        = (getStateSize samplePosition2 + UINT_W - getPly samplePosition2) % UINT_W ∧
      (0 < samplePosition2.ply → samplePosition2.stateInfo.length < UINT_W →
        (getStateSize p' : Int) - (getPly p' : Int)
          = (getStateSize samplePosition2 : Int) - (getPly samplePosition2 : Int)) ∧
      1 ≤ p'.stateInfo.length ∧
      (∃ cur, getActualStateConst p' = some cur) :=
  ⟨by decide, by with_unfolding_all decide,
    undoNullMove_size_ply samplePosition2 (by decide) (by with_unfolding_all decide)⟩

/-! ## C4: the stack is last-in first-out -/

/-- C4. The current state is the last element of the state stack, and the
stack is strictly last-in first-out: after `insertState(s)` the vector has one
element more and `getStateSize()` has grown by one (in `unsigned int`
arithmetic; by exactly one as a number when the new size fits the type),
`getActualStateConst()` and `getActualState()` are `s`, which is the element
at the last index, `getState(n)` is unchanged for every `n` below the old
size, and `removeState()` applied right after gives back exactly the original
position, stack included. -/
theorem insertState_lifo (p : Position) (s : state) :
    (insertState p s).stateInfo.length = p.stateInfo.length + 1 ∧
    getStateSize (insertState p s) = (getStateSize p + 1) % UINT_W ∧
    (p.stateInfo.length + 1 < UINT_W →
      getStateSize (insertState p s) = getStateSize p + 1) ∧
    getActualStateConst (insertState p s) = some s ∧
    getActualState (insertState p s) = some s ∧
    getState (insertState p s) ((insertState p s).stateInfo.length - 1) = some s ∧
    (∀ q : Position, getActualStateConst q = q.stateInfo.getLast? ∧
      getActualStateConst q = getState q (q.stateInfo.length - 1)) ∧
    (∀ n, n < p.stateInfo.length → getState (insertState p s) n = getState p n) ∧
    removeState (insertState p s) = some p := by
  refine ⟨?_, ?_, ?_, ?_, ?_, ?_, ?_, ?_, ?_⟩
  · simp [insertState]
  · simp only [getStateSize, insertState, List.length_append, List.length_singleton]
    rw [UINT_W_eq]
    omega
  · intro h
    simp only [getStateSize, insertState, List.length_append, List.length_singleton]
    rw [UINT_W_eq] at h ⊢
    omega
  · simp [getActualStateConst, insertState]
  · simp [getActualState, insertState]
  · simp [getState, insertState]
  · intro q
    refine ⟨rfl, ?_⟩
    simp only [getActualStateConst, getState]
    exact List.getLast?_eq_getElem? q.stateInfo
  · intro n hn
    simp only [getState, insertState]
    exact List.getElem?_append_left hn
  · exact removeState_concat (insertState p s) p.stateInfo s rfl

/-! ## C5 and C6: castle rights -/

/-- Bit `i` of the 32-bit complement. -/
theorem testBit_bitNot32 (c i : Nat) :
    (bitNot32 c).testBit i = (decide (i < 32) && !c.testBit i) := by
  unfold bitNot32
  rw [UINT_W_eq]
  have h32 : (4294967296 : Nat) = 2 ^ 32 := by norm_num
  rw [h32, Nat.testBit_xor, Nat.testBit_two_pow_sub_one, Nat.testBit_mod_two_pow]
  by_cases hi : i < 32 <;> simp [hi]

/-- A value below `2 ^ 32` has no bit at position 32 or above. -/
theorem testBit_high_false (d i : Nat) (hd : d < 2 ^ 32) (hi : 32 ≤ i) :
    d.testBit i = false := by
  apply Nat.testBit_lt_two_pow
  calc d < 2 ^ 32 := hd
    _ ≤ 2 ^ i := Nat.pow_le_pow_right (by norm_num) hi

/-- Disjoint masks share no bit. -/
theorem disjoint_testBit (c d i : Nat) (h : c &&& d = 0) (hd : d.testBit i = true) :
    c.testBit i = false := by
  have hbit := congrArg (fun x => Nat.testBit x i) h
  simp only [Nat.testBit_and, Nat.zero_testBit, hd, Bool.and_true] at hbit
  exact hbit

/-- Clearing a mask leaves none of its bits. -/
theorem clear_and_self (cr c : Nat) : (cr &&& bitNot32 c) &&& c = 0 := by
  apply Nat.eq_of_testBit_eq
  intro i
  simp only [Nat.testBit_and, testBit_bitNot32, Nat.zero_testBit]
  cases c.testBit i <;> simp

/-- Clearing a mask keeps the bits of a disjoint mask below `2 ^ 32`. -/
theorem clear_and_other (cr c d : Nat) (hd : d < 2 ^ 32) (h : c &&& d = 0) :
    (cr &&& bitNot32 c) &&& d = cr &&& d := by
  apply Nat.eq_of_testBit_eq
  intro i
  simp only [Nat.testBit_and, testBit_bitNot32]
  cases hdi : d.testBit i with
  | false => simp
  | true =>
    have hc := disjoint_testBit c d i h hdi
    have hi : i < 32 := by
      by_contra hcon
      have hfalse := testBit_high_false d i hd (by omega)
      rw [hfalse] at hdi
      exact Bool.noConfusion hdi
    simp [hc, hi]

/-- Setting a mask gives all of its bits. -/
theorem set_and_self (cr c : Nat) : (cr ||| c) &&& c = c := by
  apply Nat.eq_of_testBit_eq
  intro i
  simp only [Nat.testBit_and, Nat.testBit_or]
  cases c.testBit i <;> simp

/-- Setting a mask keeps the bits of a disjoint mask. -/
theorem set_and_other (cr c d : Nat) (h : c &&& d = 0) :
    (cr ||| c) &&& d = cr &&& d := by
  apply Nat.eq_of_testBit_eq
  intro i
  simp only [Nat.testBit_and, Nat.testBit_or]
  cases hdi : d.testBit i with
  | false => simp
  | true =>
    have hc := disjoint_testBit c d i h hdi
    simp [hc]

/-- Every single castle right is below `2 ^ 32`. -/
theorem singleRights_lt (d : eCastle) (h : d ∈ singleRights) : d < 2 ^ 32 := by
  simp only [singleRights, List.mem_cons, List.mem_singleton, List.not_mem_nil, or_false] at h
  rcases h with h | h | h | h <;> subst h <;> decide

/-- C5. `calcCastleRight` maps (king side, white), (queen side, white),
(king side, black), (queen side, black) to `wCastleOO`, `wCastleOOO`,
`bCastleOO`, `bCastleOOO`; these four results are the powers of two
`2^0, 2^1, 2^2, 2^3`, pairwise different; and for every state, side and
colour the two-argument `hasCastleRight(cr, c)` equals the one-argument
`hasCastleRight(calcCastleRight(cr, c))`. -/
theorem calcCastleRight_bits :
    state.calcCastleRight castleOO Color.white = wCastleOO ∧
    state.calcCastleRight castleOOO Color.white = wCastleOOO ∧
    state.calcCastleRight castleOO Color.black = bCastleOO ∧
    state.calcCastleRight castleOOO Color.black = bCastleOOO ∧
    state.calcCastleRight castleOO Color.white = 2 ^ 0 ∧
    state.calcCastleRight castleOOO Color.white = 2 ^ 1 ∧
    state.calcCastleRight castleOO Color.black = 2 ^ 2 ∧
    state.calcCastleRight castleOOO Color.black = 2 ^ 3 ∧
    [state.calcCastleRight castleOO Color.white,
     state.calcCastleRight castleOOO Color.white,
     state.calcCastleRight castleOO Color.black,
     state.calcCastleRight castleOOO Color.black].Pairwise (fun a b => a ≠ b) ∧
    ∀ (st : state) (cr : eCastle) (c : Color),
      st.hasCastleRightOf cr c = st.hasCastleRight (state.calcCastleRight cr c) := by
  refine ⟨by decide, by decide, by decide, by decide, by decide, by decide, by decide,
    by decide, by decide, ?_⟩
  intro st cr c
  rfl

/-- C6. For every state and every non-empty mask `c`: after
`clearCastleRight(c)` the test `hasCastleRight(c)` is false, after
`setCastleRight(c)` it is true, and in both cases `hasCastleRight(d)` is
unchanged for every single right `d` not contained in `c`; and
`clearCastleRight()` without argument makes `hasCastleRights()` false. -/
theorem castleRight_independent (st : state) (c : eCastle) (hc : c ≠ 0) :
    (st.clearCastleRight c).hasCastleRight c = false ∧
    (st.setCastleRight c).hasCastleRight c = true ∧
    (∀ d, d ∈ singleRights → c &&& d = 0 →
      (st.clearCastleRight c).hasCastleRight d = st.hasCastleRight d ∧
      (st.setCastleRight c).hasCastleRight d = st.hasCastleRight d) ∧
    st.clearCastleRightAll.hasCastleRights = false := by
  refine ⟨?_, ?_, ?_, ?_⟩
  · simp [state.clearCastleRight, state.hasCastleRight, clear_and_self]
  · simp [state.setCastleRight, state.hasCastleRight, set_and_self, hc]
  · intro d hd hcd
    constructor
    · simp only [state.clearCastleRight, state.hasCastleRight]
      rw [clear_and_other _ _ _ (singleRights_lt d hd) hcd]
    · simp only [state.setCastleRight, state.hasCastleRight]
      rw [set_and_other _ _ _ hcd]
  · simp [state.clearCastleRightAll, state.hasCastleRights]

/-- C6, at the sample state with the mask of both white rights. -/
theorem castleRight_independent_witness :
    (wCastleOO ||| wCastleOOO) ≠ 0 ∧
    (sampleState.clearCastleRight (wCastleOO ||| wCastleOOO)).hasCastleRight
        (wCastleOO ||| wCastleOOO) = false ∧
    (sampleState.setCastleRight (wCastleOO ||| wCastleOOO)).hasCastleRight
        (wCastleOO ||| wCastleOOO) = true ∧
    (∀ d, d ∈ singleRights → (wCastleOO ||| wCastleOOO) &&& d = 0 →
      (sampleState.clearCastleRight (wCastleOO ||| wCastleOOO)).hasCastleRight d
        = sampleState.hasCastleRight d ∧
      (sampleState.setCastleRight (wCastleOO ||| wCastleOOO)).hasCastleRight d
        = sampleState.hasCastleRight d) ∧
    sampleState.clearCastleRightAll.hasCastleRights = false :=
  ⟨by decide, castleRight_independent sampleState (wCastleOO ||| wCastleOOO) (by decide)⟩

/-! ## C7: attackers on the real board -/

/-- C7. For every position and square `s`, whenever the occupied-squares
bitboard `getOccupationBitmap()` is `occ`, the one-argument
`getAttackersTo(s)` is the two-argument `getAttackersTo(s, occ)`, whatever
the two-argument overload computes. -/
theorem getAttackersTo_real_board (attackersTo : Position → tSquare → bitMap → bitMap)
    (T : Tables) (p : Position) (s : tSquare) (occ : bitMap)
    (h : getOccupationBitmap T p = some occ) :
    getAttackersTo attackersTo T p s = some (attackersTo p s occ) := by
  unfold getOccupationBitmap at h
  unfold getAttackersTo
  rw [h]

/-- C7, at the sample position and the square e1. -/
theorem getAttackersTo_real_board_witness :
    getOccupationBitmap sampleTables samplePosition = some 1152956792058150928 ∧
    getAttackersTo sampleAttackers sampleTables samplePosition 4
      = some (sampleAttackers samplePosition 4 1152956792058150928) :=
  ⟨by decide, getAttackersTo_real_board sampleAttackers sampleTables samplePosition 4
    1152956792058150928 (by decide)⟩

/-! ## C8: the game phase -/

/-- Rounding to nearest does not pass an integer bound from below. -/
theorem roundHalfEven_le (t : ℚ) (N : Int) (h : t ≤ N) : roundHalfEven t ≤ N := by
  have hf : (⌊t⌋ : ℚ) ≤ t := Int.floor_le t
  have hfN : ⌊t⌋ ≤ N := by
    have : ((⌊t⌋ : Int) : ℚ) ≤ (N : ℚ) := le_trans hf h
    exact_mod_cast this
  have hstep : 1 / 2 ≤ t - (⌊t⌋ : ℚ) → ⌊t⌋ + 1 ≤ N := by
    intro hr
    have hne : ⌊t⌋ ≠ N := by
      intro heq
      rw [heq] at hr
      linarith
    omega
  unfold roundHalfEven
  simp only
  split_ifs with h1 h2 h3
  · exact hfN
  · exact hstep (le_of_lt h2)
  · exact hfN
  · exact hstep (not_lt.mp h1)

/-- Rounding a non-negative rational gives a non-negative integer. -/
theorem roundHalfEven_nonneg (t : ℚ) (h : 0 ≤ t) : 0 ≤ roundHalfEven t := by
  have hf : 0 ≤ ⌊t⌋ := Int.floor_nonneg.mpr h
  unfold roundHalfEven
  simp only
  split_ifs <;> omega

/-- An integer rounds to itself. -/
theorem roundHalfEven_intCast (n : Int) : roundHalfEven (n : ℚ) = n := by
  unfold roundHalfEven
  simp

/-- The `float` nearest to a non-negative rational is non-negative. -/
theorem f32Round_nonneg (q : ℚ) (h : 0 ≤ q) : 0 ≤ f32Round q := by
  unfold f32Round
  split_ifs with h0
  · exact le_refl 0
  · simp only
    have hulp : (0 : ℚ) < (2 : ℚ) ^ (max (Int.log 2 |q|) (-126) - 23) := by positivity
    have hr : 0 ≤ roundHalfEven (q / (2 : ℚ) ^ (max (Int.log 2 |q|) (-126) - 23)) :=
      roundHalfEven_nonneg _ (div_nonneg h (le_of_lt hulp))
    have hr' : (0 : ℚ) ≤ (roundHalfEven (q / (2 : ℚ) ^ (max (Int.log 2 |q|) (-126) - 23)) : ℚ) := by
      exact_mod_cast hr
    exact mul_nonneg hr' (le_of_lt hulp)

/-- The `float` nearest to a rational in `[0, 65536]` is at most `65536`. -/
theorem f32Round_le_65536 (q : ℚ) (h0 : 0 ≤ q) (h : q ≤ 65536) : f32Round q ≤ 65536 := by
  unfold f32Round
  split_ifs with hq
  · norm_num
  · simp only
    have hpos : 0 < q := lt_of_le_of_ne h0 (Ne.symm hq)
    rw [abs_of_pos hpos]
    have hlog : Int.log 2 q < 17 := by
      rw [← Int.lt_zpow_iff_log_lt (by norm_num) hpos]
      norm_num
      linarith
    set e : Int := max (Int.log 2 q) (-126) with he
    have he16 : e ≤ 16 := by
      rw [he]
      exact max_le (by omega) (by norm_num)
    have hulp : (0 : ℚ) < (2 : ℚ) ^ (e - 23) := by positivity
    have hk : ((Int.toNat (39 - e) : ℕ) : ℤ) = 39 - e := Int.toNat_of_nonneg (by omega)
    have hN : (((2 : ℤ) ^ (Int.toNat (39 - e)) : ℤ) : ℚ) * (2 : ℚ) ^ (e - 23) = 65536 := by
      push_cast
      rw [← zpow_natCast, hk, ← zpow_add₀ (by norm_num : (2 : ℚ) ≠ 0)]
      have : (39 - e + (e - 23)) = 16 := by ring
      rw [this]
      norm_num
    have hle : q / (2 : ℚ) ^ (e - 23) ≤ (((2 : ℤ) ^ (Int.toNat (39 - e)) : ℤ) : ℚ) := by
      rw [div_le_iff₀ hulp, hN]
      exact h
    have hr := roundHalfEven_le _ _ hle
    have hr' : (roundHalfEven (q / (2 : ℚ) ^ (e - 23)) : ℚ)
        ≤ (((2 : ℤ) ^ (Int.toNat (39 - e)) : ℤ) : ℚ) := by exact_mod_cast hr
    calc (roundHalfEven (q / (2 : ℚ) ^ (e - 23)) : ℚ) * (2 : ℚ) ^ (e - 23)
        ≤ (((2 : ℤ) ^ (Int.toNat (39 - e)) : ℤ) : ℚ) * (2 : ℚ) ^ (e - 23) :=
          mul_le_mul_of_nonneg_right hr' (le_of_lt hulp)
      _ = 65536 := hN

/-- Natural numbers below `2 ^ 24` are representable as `float`. -/
theorem f32Round_natCast (n : ℕ) (h : n < 2 ^ 24) : f32Round (n : ℚ) = n := by
  unfold f32Round
  split_ifs with hq
  · exact hq.symm
  · simp only
    have hn : n ≠ 0 := by
      intro h0
      apply hq
      simp [h0]
    rw [abs_of_nonneg (Nat.cast_nonneg n), Int.log_natCast]
    have hl : Nat.log 2 n < 24 := Nat.log_lt_of_lt_pow hn h
    have hmax : max ((Nat.log 2 n : ℕ) : ℤ) (-126) = (Nat.log 2 n : ℤ) := by
      apply max_eq_left
      omega
    rw [hmax]
    have hk : (((23 - Nat.log 2 n : ℕ)) : ℤ) = 23 - (Nat.log 2 n : ℤ) := by omega
    have hulp : (2 : ℚ) ^ ((Nat.log 2 n : ℤ) - 23) = ((2 : ℚ) ^ (23 - Nat.log 2 n))⁻¹ := by
      rw [← zpow_natCast, hk, ← zpow_neg]
      congr 1
      ring
    rw [hulp]
    have hpow : (0 : ℚ) < (2 : ℚ) ^ (23 - Nat.log 2 n) := by positivity
    have hdiv : (n : ℚ) / ((2 : ℚ) ^ (23 - Nat.log 2 n))⁻¹
        = (((n * 2 ^ (23 - Nat.log 2 n) : ℕ) : ℤ) : ℚ) := by
      rw [div_inv_eq_mul]
      push_cast
      ring
    rw [hdiv, roundHalfEven_intCast]
    push_cast
    field_simp

/-- Conversion to `float` is exact on non-negative integers below `2 ^ 24`. -/
theorem f32OfInt_exact (i : Int) (h0 : 0 ≤ i) (h : i < 2 ^ 24) : f32OfInt i = i := by
  obtain ⟨n, rfl⟩ := Int.eq_ofNat_of_zero_le h0
  have hn : n < 2 ^ 24 := by exact_mod_cast h
  unfold f32OfInt
  simpa using f32Round_natCast n hn

/-- The interpolation factor `65536.0f / (float)(opening - endgame)`. -/
theorem f32_phase_factor :
    f32Div 65536 (f32OfInt (700000 - 100000)) = 14660155 / 2 ^ 27 := by
  have hx : f32OfInt (700000 - 100000) = 600000 := by
    have := f32OfInt_exact (700000 - 100000) (by norm_num) (by norm_num)
    rw [this]
    norm_num
  rw [hx]
  unfold f32Div f32Round
  have hq : (65536 : ℚ) / 600000 ≠ 0 := by norm_num
  rw [if_neg hq]
  simp only
  have hpos : (0 : ℚ) < 65536 / 600000 := by norm_num
  rw [abs_of_pos hpos]
  have hlog : Int.log 2 ((65536 : ℚ) / 600000) = -4 := by
    apply le_antisymm
    · have : Int.log 2 ((65536 : ℚ) / 600000) < -3 := by
        rw [← Int.lt_zpow_iff_log_lt (by norm_num) hpos]
        norm_num
      omega
    · rw [← Int.zpow_le_iff_le_log (by norm_num) hpos]
      norm_num
  rw [hlog]
  have hmax : max (-4 : ℤ) (-126) = -4 := by decide
  rw [hmax]
  have hfl : ⌊(65536 : ℚ) / 600000 / (2 : ℚ) ^ ((-4 : ℤ) - 23)⌋ = 14660155 := by
    rw [Int.floor_eq_iff]
    norm_num
  unfold roundHalfEven
  simp only [hfl]
  norm_num

/-- The interpolated value is defined, at most `65536`, and `0` at `0`. -/
theorem f32_interpolate_bounds (x : Int) (h0 : 0 ≤ x) (h1 : x ≤ 600000) :
    ∃ g : Nat, f32ToUInt (f32Mul (f32OfInt x) (f32Div 65536 (f32OfInt (700000 - 100000))))
      = some g ∧ g ≤ 65536 ∧ (x = 0 → g = 0) := by
  rw [f32_phase_factor, f32OfInt_exact x h0 (by norm_num; omega)]
  have hx0 : (0 : ℚ) ≤ (x : ℚ) := by exact_mod_cast h0
  have hx1 : (x : ℚ) ≤ 600000 := by exact_mod_cast h1
  have hprod0 : (0 : ℚ) ≤ (x : ℚ) * (14660155 / 2 ^ 27) := by positivity
  have hprod1 : (x : ℚ) * (14660155 / 2 ^ 27) ≤ 65536 := by
    have : (x : ℚ) * (14660155 / 2 ^ 27) ≤ 600000 * (14660155 / 2 ^ 27) :=
      mul_le_mul_of_nonneg_right hx1 (by norm_num)
    refine le_trans this ?_
    norm_num
  have hy0 := f32Round_nonneg _ hprod0
  have hy1 := f32Round_le_65536 _ hprod0 hprod1
  unfold f32Mul
  set y : ℚ := f32Round ((x : ℚ) * (14660155 / 2 ^ 27)) with hy
  have hdef : -1 < y ∧ y < (UINT_W : ℚ) := by
    constructor
    · linarith
    · rw [UINT_W_eq]
      push_cast
      linarith
  refine ⟨Int.toNat ⌊y⌋, ?_, ?_, ?_⟩
  · unfold f32ToUInt
    rw [if_pos hdef]
  · have hfl : ⌊y⌋ ≤ 65536 := by
      have h1 : ((⌊y⌋ : ℤ) : ℚ) ≤ y := Int.floor_le y
      have h2 : ((⌊y⌋ : ℤ) : ℚ) ≤ ((65536 : ℤ) : ℚ) := by
        push_cast
        linarith
      exact_mod_cast h2
    omega
  · intro hx
    have : y = 0 := by
      rw [hy, hx]
      simp [f32Round]
    rw [this]
    simp

/-- Rounding to nearest does not pass an integer bound from above. -/
theorem roundHalfEven_ge (t : ℚ) (N : Int) (h : (N : ℚ) ≤ t) : N ≤ roundHalfEven t := by
  have hf : N ≤ ⌊t⌋ := Int.le_floor.mpr h
  unfold roundHalfEven
  simp only
  split_ifs <;> omega

/-- Rounding to nearest moves a rational by at most one half. -/
theorem roundHalfEven_close (t : ℚ) :
    (roundHalfEven t : ℚ) ≤ t + 1 / 2 ∧ t - 1 / 2 ≤ (roundHalfEven t : ℚ) := by
  have hf : (⌊t⌋ : ℚ) ≤ t := Int.floor_le t
  have hlt : t < (⌊t⌋ : ℚ) + 1 := Int.lt_floor_add_one t
  unfold roundHalfEven
  simp only
  split_ifs with h1 h2 h3
  · constructor <;> linarith
  · push_cast
    constructor <;> linarith
  · constructor <;> linarith
  · push_cast
    have h4 : t - (⌊t⌋ : ℚ) = 1 / 2 := le_antisymm (not_lt.mp h2) (not_lt.mp h1)
    constructor <;> linarith

/-- Rounding to nearest is monotone. -/
theorem roundHalfEven_mono (t s : ℚ) (h : t ≤ s) : roundHalfEven t ≤ roundHalfEven s := by
  have hfl : ⌊t⌋ ≤ ⌊s⌋ := Int.floor_le_floor h
  rcases lt_or_eq_of_le hfl with hlt | heq
  · have h1 : roundHalfEven t ≤ ⌊t⌋ + 1 := by
      apply roundHalfEven_le
      push_cast
      exact le_of_lt (Int.lt_floor_add_one t)
    have h2 : ⌊s⌋ ≤ roundHalfEven s := roundHalfEven_ge s ⌊s⌋ (Int.floor_le s)
    omega
  · unfold roundHalfEven
    simp only
    rw [heq] at *
    split_ifs <;> first | omega | (exfalso; linarith)

/-- The nearest integer to a rational within one half of the integer `n` is
`n`. -/
theorem roundHalfEven_eval (t : ℚ) (n : Int) (h1 : (n : ℚ) - 1 / 2 < t)
    (h2 : t < (n : ℚ) + 1 / 2) : roundHalfEven t = n := by
  obtain ⟨c1, c2⟩ := roundHalfEven_close t
  have hle : (roundHalfEven t : ℚ) < (n : ℚ) + 1 := by linarith
  have hge : (n : ℚ) - 1 < (roundHalfEven t : ℚ) := by linarith
  have hle' : roundHalfEven t < n + 1 := by exact_mod_cast hle
  have hge' : n - 1 < roundHalfEven t := by exact_mod_cast hge
  omega

/-- Value of the nearest `float` from the binade and the rounded
significand. -/
theorem f32Round_eval (q : ℚ) (e n : Int) (he : -126 ≤ e)
    (h1 : (2 : ℚ) ^ e ≤ q) (h2 : q < (2 : ℚ) ^ (e + 1))
    (h3 : (n : ℚ) - 1 / 2 < q / (2 : ℚ) ^ (e - 23))
    (h4 : q / (2 : ℚ) ^ (e - 23) < (n : ℚ) + 1 / 2) :
    f32Round q = (n : ℚ) * (2 : ℚ) ^ (e - 23) := by
  have hpos : 0 < q := lt_of_lt_of_le (by positivity) h1
  have hlog : Int.log 2 q = e := by
    apply le_antisymm
    · have hlt : Int.log 2 q < e + 1 := by
        rw [← Int.lt_zpow_iff_log_lt (by norm_num) hpos]
        exact_mod_cast h2
      omega
    · rw [← Int.zpow_le_iff_le_log (by norm_num) hpos]
      exact_mod_cast h1
  unfold f32Round
  rw [if_neg (ne_of_gt hpos)]
  simp only
  rw [abs_of_pos hpos, hlog, max_eq_left he, roundHalfEven_eval _ n h3 h4]

/-- The nearest `float` to a rational in `(0, 65536]` is within `1/256` of
it. -/
theorem f32Round_close (q : ℚ) (h0 : 0 ≤ q) (h : q ≤ 65536) :
    f32Round q ≤ q + 1 / 256 ∧ q - 1 / 256 ≤ f32Round q := by
  unfold f32Round
  split_ifs with hq
  · rw [hq]
    constructor <;> norm_num
  · simp only
    have hpos : 0 < q := lt_of_le_of_ne h0 (Ne.symm hq)
    rw [abs_of_pos hpos]
    have hlog : Int.log 2 q < 17 := by
      rw [← Int.lt_zpow_iff_log_lt (by norm_num) hpos]
      norm_num
      linarith
    set e : Int := max (Int.log 2 q) (-126) with he
    have he16 : e ≤ 16 := by
      rw [he]
      exact max_le (by omega) (by norm_num)
    have hulp : (0 : ℚ) < (2 : ℚ) ^ (e - 23) := by positivity
    have hulp_le : (2 : ℚ) ^ (e - 23) ≤ 1 / 128 := by
      have h7 : (2 : ℚ) ^ (e - 23) ≤ (2 : ℚ) ^ (-7 : ℤ) :=
        zpow_le_zpow_right₀ (by norm_num) (by omega)
      have h8 : (2 : ℚ) ^ (-7 : ℤ) = 1 / 128 := by norm_num
      rw [h8] at h7
      exact h7
    obtain ⟨c1, c2⟩ := roundHalfEven_close (q / (2 : ℚ) ^ (e - 23))
    have hq' : q / (2 : ℚ) ^ (e - 23) * (2 : ℚ) ^ (e - 23) = q :=
      div_mul_cancel₀ q (ne_of_gt hulp)
    have u1 := mul_le_mul_of_nonneg_right c1 (le_of_lt hulp)
    have u2 := mul_le_mul_of_nonneg_right c2 (le_of_lt hulp)
    rw [add_mul, hq'] at u1
    rw [sub_mul, hq'] at u2
    constructor <;> linarith

/-- The nearest `float` is monotone on the non-negative rationals. -/
theorem f32Round_mono (a b : ℚ) (ha : 0 ≤ a) (hab : a ≤ b) :
    f32Round a ≤ f32Round b := by
  by_cases ha0 : a = 0
  · rw [ha0]
    have h0 : f32Round 0 = 0 := by simp [f32Round]
    rw [h0]
    exact f32Round_nonneg b (le_trans ha hab)
  have hapos : 0 < a := lt_of_le_of_ne ha (Ne.symm ha0)
  have hbpos : 0 < b := lt_of_lt_of_le hapos hab
  have hlogab : Int.log 2 a ≤ Int.log 2 b := Int.log_mono_right hapos hab
  unfold f32Round
  rw [if_neg ha0, if_neg (ne_of_gt hbpos)]
  simp only
  rw [abs_of_pos hapos, abs_of_pos hbpos]
  set ea : Int := max (Int.log 2 a) (-126) with hea
  set eb : Int := max (Int.log 2 b) (-126) with heb
  have hea126 : -126 ≤ ea := le_max_right _ _
  have heab : ea ≤ eb := max_le_max hlogab (le_refl _)
  have hua : (0 : ℚ) < (2 : ℚ) ^ (ea - 23) := by positivity
  have hub : (0 : ℚ) < (2 : ℚ) ^ (eb - 23) := by positivity
  rcases lt_or_eq_of_le heab with hlt | heq
  · have hlogb : Int.log 2 b = eb := by
      rcases max_cases (Int.log 2 b) (-126) with ⟨h1, _⟩ | ⟨h1, _⟩
      · rw [heb, h1]
      · exfalso
        rw [← heb] at h1
        omega
    have hb_ge : (2 : ℚ) ^ eb ≤ b := by
      rw [← hlogb]
      exact_mod_cast Int.zpow_log_le_self (by norm_num) hbpos
    have ha_lt : a < (2 : ℚ) ^ (ea + 1) := by
      have h1 : a < (2 : ℚ) ^ (Int.log 2 a + 1) := by
        exact_mod_cast Int.lt_zpow_succ_log_self (by norm_num) a
      have h2 : (2 : ℚ) ^ (Int.log 2 a + 1) ≤ (2 : ℚ) ^ (ea + 1) :=
        zpow_le_zpow_right₀ (by norm_num) (by
          have := le_max_left (Int.log 2 a) (-126)
          omega)
      exact lt_of_lt_of_le h1 h2
    have hNa : (((2 : ℤ) ^ 24 : ℤ) : ℚ) * (2 : ℚ) ^ (ea - 23) = (2 : ℚ) ^ (ea + 1) := by
      have h24 : (((2 : ℤ) ^ 24 : ℤ) : ℚ) = (2 : ℚ) ^ (24 : ℤ) := by norm_num
      rw [h24, ← zpow_add₀ (by norm_num : (2 : ℚ) ≠ 0)]
      congr 1
      ring
    have hta : a / (2 : ℚ) ^ (ea - 23) ≤ (((2 : ℤ) ^ 24 : ℤ) : ℚ) := by
      rw [div_le_iff₀ hua, hNa]
      exact le_of_lt ha_lt
    have hra : (roundHalfEven (a / (2 : ℚ) ^ (ea - 23)) : ℚ) ≤ (((2 : ℤ) ^ 24 : ℤ) : ℚ) := by
      exact_mod_cast roundHalfEven_le _ _ hta
    have hfa : (roundHalfEven (a / (2 : ℚ) ^ (ea - 23)) : ℚ) * (2 : ℚ) ^ (ea - 23)
        ≤ (2 : ℚ) ^ (ea + 1) := by
      rw [← hNa]
      exact mul_le_mul_of_nonneg_right hra (le_of_lt hua)
    have hNb : (((2 : ℤ) ^ 23 : ℤ) : ℚ) * (2 : ℚ) ^ (eb - 23) = (2 : ℚ) ^ eb := by
      have h23 : (((2 : ℤ) ^ 23 : ℤ) : ℚ) = (2 : ℚ) ^ (23 : ℤ) := by norm_num
      rw [h23, ← zpow_add₀ (by norm_num : (2 : ℚ) ≠ 0)]
      congr 1
      ring
    have htb : (((2 : ℤ) ^ 23 : ℤ) : ℚ) ≤ b / (2 : ℚ) ^ (eb - 23) := by
      rw [le_div_iff₀ hub, hNb]
      exact hb_ge
    have hrb : (((2 : ℤ) ^ 23 : ℤ) : ℚ) ≤ (roundHalfEven (b / (2 : ℚ) ^ (eb - 23)) : ℚ) := by
      exact_mod_cast roundHalfEven_ge _ _ htb
    have hfb : (2 : ℚ) ^ eb
        ≤ (roundHalfEven (b / (2 : ℚ) ^ (eb - 23)) : ℚ) * (2 : ℚ) ^ (eb - 23) := by
      rw [← hNb]
      exact mul_le_mul_of_nonneg_right hrb (le_of_lt hub)
    have hmid : (2 : ℚ) ^ (ea + 1) ≤ (2 : ℚ) ^ eb :=
      zpow_le_zpow_right₀ (by norm_num) (by omega)
    linarith
  · rw [← heq]
    have hdiv : a / (2 : ℚ) ^ (ea - 23) ≤ b / (2 : ℚ) ^ (ea - 23) :=
      div_le_div_of_nonneg_right hab (le_of_lt hua)
    have hr := roundHalfEven_mono _ _ hdiv
    have hr' : (roundHalfEven (a / (2 : ℚ) ^ (ea - 23)) : ℚ)
        ≤ (roundHalfEven (b / (2 : ℚ) ^ (ea - 23)) : ℚ) := by exact_mod_cast hr
    exact mul_le_mul_of_nonneg_right hr' (le_of_lt hua)

/-- The interpolated value: the integer part of the rounded product, within
`1/128` above and `1 + 1/128` below the exact linear interpolation. -/
theorem f32_interpolate_value (x : Int) (h0 : 0 ≤ x) (h1 : x ≤ 600000) :
    ∃ g : Nat, f32ToUInt (f32Mul (f32OfInt x) (f32Div 65536 (f32OfInt (700000 - 100000))))
      = some g ∧
      (g : Int) = ⌊f32Round ((x : ℚ) * (14660155 / 2 ^ 27))⌋ ∧
      (g : ℚ) ≤ (x : ℚ) * 65536 / 600000 + 1 / 128 ∧
      (x : ℚ) * 65536 / 600000 - 1 / 128 < (g : ℚ) + 1 := by
  rw [f32_phase_factor, f32OfInt_exact x h0 (by norm_num; omega)]
  have hx0 : (0 : ℚ) ≤ (x : ℚ) := by exact_mod_cast h0
  have hx1 : (x : ℚ) ≤ 600000 := by exact_mod_cast h1
  have hprod0 : (0 : ℚ) ≤ (x : ℚ) * (14660155 / 2 ^ 27) := by positivity
  have hprod1 : (x : ℚ) * (14660155 / 2 ^ 27) ≤ 65536 := by
    have hle : (x : ℚ) * (14660155 / 2 ^ 27) ≤ 600000 * (14660155 / 2 ^ 27) :=
      mul_le_mul_of_nonneg_right hx1 (by norm_num)
    refine le_trans hle ?_
    norm_num
  have hy0 := f32Round_nonneg _ hprod0
  have hy1 := f32Round_le_65536 _ hprod0 hprod1
  obtain ⟨hc1, hc2⟩ := f32Round_close _ hprod0 hprod1
  have hup : (x : ℚ) * (14660155 / 2 ^ 27) ≤ (x : ℚ) * 65536 / 600000 := by
    have hk : (x : ℚ) * (14660155 / 2 ^ 27) ≤ (x : ℚ) * (65536 / 600000) :=
      mul_le_mul_of_nonneg_left (by norm_num) hx0
    linarith
  have hlow : (x : ℚ) * 65536 / 600000 - 1 / 256 ≤ (x : ℚ) * (14660155 / 2 ^ 27) := by
    have hk : (x : ℚ) * (65536 / 600000 - 14660155 / 2 ^ 27)
        ≤ 600000 * (65536 / 600000 - 14660155 / 2 ^ 27) :=
      mul_le_mul_of_nonneg_right hx1 (by norm_num)
    have hk2 : (600000 : ℚ) * (65536 / 600000 - 14660155 / 2 ^ 27) ≤ 1 / 256 := by
      norm_num
    linarith
  unfold f32Mul
  set y : ℚ := f32Round ((x : ℚ) * (14660155 / 2 ^ 27)) with hy
  have hdef : -1 < y ∧ y < (UINT_W : ℚ) := by
    constructor
    · linarith
    · rw [UINT_W_eq]
      push_cast
      linarith
  have hfl0 : 0 ≤ ⌊y⌋ := Int.floor_nonneg.mpr hy0
  have hcast : ((Int.toNat ⌊y⌋ : ℕ) : ℤ) = ⌊y⌋ := Int.toNat_of_nonneg hfl0
  have hcastq : ((Int.toNat ⌊y⌋ : ℕ) : ℚ) = ((⌊y⌋ : ℤ) : ℚ) := by
    rw [← hcast]
    push_cast
    rfl
  have hfle : ((⌊y⌋ : ℤ) : ℚ) ≤ y := Int.floor_le y
  have hflt : y < ((⌊y⌋ : ℤ) : ℚ) + 1 := Int.lt_floor_add_one y
  refine ⟨Int.toNat ⌊y⌋, ?_, hcast, ?_, ?_⟩
  · unfold f32ToUInt
    rw [if_pos hdef]
  · rw [hcastq]
    linarith
  · rw [hcastq]
    linarith

/-- The interpolated value grows with its argument. -/
theorem f32_interpolate_mono (x1 x2 : Int) (h0 : 0 ≤ x1) (h12 : x1 ≤ x2)
    (h2 : x2 ≤ 600000) :
    ∃ g1 g2 : Nat,
      f32ToUInt (f32Mul (f32OfInt x1) (f32Div 65536 (f32OfInt (700000 - 100000))))
        = some g1 ∧
      f32ToUInt (f32Mul (f32OfInt x2) (f32Div 65536 (f32OfInt (700000 - 100000))))
        = some g2 ∧
      g1 ≤ g2 := by
  obtain ⟨g1, e1, v1, _, _⟩ := f32_interpolate_value x1 h0 (by omega)
  obtain ⟨g2, e2, v2, _, _⟩ := f32_interpolate_value x2 (by omega) h2
  refine ⟨g1, g2, e1, e2, ?_⟩
  have hx0 : (0 : ℚ) ≤ (x1 : ℚ) := by exact_mod_cast h0
  have hx12 : (x1 : ℚ) ≤ (x2 : ℚ) := by exact_mod_cast h12
  have hprod : (x1 : ℚ) * (14660155 / 2 ^ 27) ≤ (x2 : ℚ) * (14660155 / 2 ^ 27) :=
    mul_le_mul_of_nonneg_right hx12 (by norm_num)
  have hmono := f32Round_mono _ _ (by positivity) hprod
  have hfl := Int.floor_le_floor hmono
  omega

/-- The interpolated value at the ends and the middle of the range. -/
theorem f32_interpolate_marks :
    f32ToUInt (f32Mul (f32OfInt 600000) (f32Div 65536 (f32OfInt (700000 - 100000))))
      = some 65536 ∧
    f32ToUInt (f32Mul (f32OfInt 300000) (f32Div 65536 (f32OfInt (700000 - 100000))))
      = some 32768 := by
  have r1 : f32Round (((600000 : Int) : ℚ) * (14660155 / 2 ^ 27)) = 65536 := by
    rw [f32Round_eval _ 15 16777216 (by norm_num) (by norm_num) (by norm_num)
      (by norm_num) (by norm_num)]
    norm_num
  have r2 : f32Round (((300000 : Int) : ℚ) * (14660155 / 2 ^ 27)) = 32768 := by
    rw [f32Round_eval _ 14 16777216 (by norm_num) (by norm_num) (by norm_num)
      (by norm_num) (by norm_num)]
    norm_num
  constructor
  · obtain ⟨g, e, v, _, _⟩ := f32_interpolate_value 600000 (by norm_num) (by norm_num)
    rw [r1] at v
    have hg : g = 65536 := by
      have hfl : ⌊(65536 : ℚ)⌋ = 65536 := by
        rw [Int.floor_eq_iff]
        norm_num
      rw [hfl] at v
      omega
    rw [e, hg]
  · obtain ⟨g, e, v, _, _⟩ := f32_interpolate_value 300000 (by norm_num) (by norm_num)
    rw [r2] at v
    have hg : g = 32768 := by
      have hfl : ⌊(32768 : ℚ)⌋ = 32768 := by
        rw [Int.floor_eq_iff]
        norm_num
      rw [hfl] at v
      omega
    rw [e, hg]

/-- The three branches of `getGamePhase` as a function of `tot`. -/
theorem phase_cases (tot : Int) :
    (700000 ≤ tot →
      (if tot > 700000 then some 0
       else if tot < 100000 then some 65536
       else f32ToUInt (f32Mul (f32OfInt (700000 - tot))
          (f32Div 65536 (f32OfInt (700000 - 100000))))) = some 0) ∧
    (tot < 100000 →
      (if tot > 700000 then some 0
       else if tot < 100000 then some 65536
       else f32ToUInt (f32Mul (f32OfInt (700000 - tot))
          (f32Div 65536 (f32OfInt (700000 - 100000))))) = some 65536) ∧
    (∃ g : Nat,
      (if tot > 700000 then some 0
       else if tot < 100000 then some 65536
       else f32ToUInt (f32Mul (f32OfInt (700000 - tot))
          (f32Div 65536 (f32OfInt (700000 - 100000))))) = some g ∧ g ≤ 65536) := by
  refine ⟨?_, ?_, ?_⟩
  · intro hge
    by_cases hgt : tot > 700000
    · rw [if_pos hgt]
    · rw [if_neg hgt, if_neg (by omega)]
      have hx : (700000 : Int) - tot = 0 := by omega
      obtain ⟨g, hg, _, hz⟩ := f32_interpolate_bounds (700000 - tot) (by omega) (by omega)
      rw [hg, hz hx]
  · intro hlt
    rw [if_neg (by omega), if_pos hlt]
  · by_cases hgt : tot > 700000
    · rw [if_pos hgt]
      exact ⟨0, rfl, by omega⟩
    · rw [if_neg hgt]
      by_cases hlt : tot < 100000
      · rw [if_pos hlt]
        exact ⟨65536, rfl, by omega⟩
      · rw [if_neg hlt]
        obtain ⟨g, hg, hle, _⟩ := f32_interpolate_bounds (700000 - tot) (by omega) (by omega)
        exact ⟨g, hg, hle⟩

/-- Unfolding of `getGamePhase` on a position with current state `sq`. -/
theorem getGamePhase_unfold (q : Position) (sq : state)
    (hq : getActualStateConst q = some sq) :
    getGamePhase q =
      (if sq.nonPawnMaterial.v0 + sq.nonPawnMaterial.v2 > 700000 then some 0
       else if sq.nonPawnMaterial.v0 + sq.nonPawnMaterial.v2 < 100000 then some 65536
       else f32ToUInt (f32Mul
          (f32OfInt (700000 - (sq.nonPawnMaterial.v0 + sq.nonPawnMaterial.v2)))
          (f32Div 65536 (f32OfInt (700000 - 100000))))) := by
  unfold getGamePhase
  rw [hq]

/-- Shape of `getGamePhase` between the two thresholds, as a function of
`tot`: close to the linear interpolation, with its values at the lower
threshold and at the middle of the range. -/
theorem phase_shape (tot : Int) :
    (100000 ≤ tot → tot ≤ 700000 →
      ∃ g : Nat,
        (if tot > 700000 then some 0
         else if tot < 100000 then some 65536
         else f32ToUInt (f32Mul (f32OfInt (700000 - tot))
            (f32Div 65536 (f32OfInt (700000 - 100000))))) = some g ∧
        (g : ℚ) ≤ ((700000 - tot : Int) : ℚ) * 65536 / 600000 + 1 / 128 ∧
        ((700000 - tot : Int) : ℚ) * 65536 / 600000 - 1 / 128 < (g : ℚ) + 1) ∧
    (tot = 100000 →
      (if tot > 700000 then some 0
       else if tot < 100000 then some 65536
       else f32ToUInt (f32Mul (f32OfInt (700000 - tot))
          (f32Div 65536 (f32OfInt (700000 - 100000))))) = some 65536) ∧
    (tot = 400000 →
      (if tot > 700000 then some 0
       else if tot < 100000 then some 65536
       else f32ToUInt (f32Mul (f32OfInt (700000 - tot))
          (f32Div 65536 (f32OfInt (700000 - 100000))))) = some 32768) := by
  refine ⟨?_, ?_, ?_⟩
  · intro hlo hhi
    rw [if_neg (by omega), if_neg (by omega)]
    obtain ⟨g, e, _, c1, c2⟩ := f32_interpolate_value (700000 - tot) (by omega) (by omega)
    exact ⟨g, e, c1, c2⟩
  · intro ht
    rw [if_neg (by omega), if_neg (by omega), ht]
    exact f32_interpolate_marks.1
  · intro ht
    rw [if_neg (by omega), if_neg (by omega), ht]
    exact f32_interpolate_marks.2

/-- The value of `getGamePhase` does not grow with `tot`. -/
theorem phase_mono (t1 t2 : Int) (h : t1 ≤ t2) :
    ∃ g1 g2 : Nat,
      (if t1 > 700000 then some 0
       else if t1 < 100000 then some 65536
       else f32ToUInt (f32Mul (f32OfInt (700000 - t1))
          (f32Div 65536 (f32OfInt (700000 - 100000))))) = some g1 ∧
      (if t2 > 700000 then some 0
       else if t2 < 100000 then some 65536
       else f32ToUInt (f32Mul (f32OfInt (700000 - t2))
          (f32Div 65536 (f32OfInt (700000 - 100000))))) = some g2 ∧
      g2 ≤ g1 := by
  obtain ⟨_, _, g1, e1, b1⟩ := phase_cases t1
  obtain ⟨_, _, g2, e2, b2⟩ := phase_cases t2
  by_cases hq : t2 > 700000
  · refine ⟨g1, 0, e1, ?_, Nat.zero_le g1⟩
    rw [if_pos hq]
  · by_cases hp : t1 < 100000
    · refine ⟨65536, g2, ?_, e2, b2⟩
      rw [if_neg (by omega), if_pos hp]
    · rw [if_neg (by omega), if_neg hp]
      rw [if_neg hq, if_neg (by omega)]
      obtain ⟨a, b, ea, eb, hab⟩ :=
        f32_interpolate_mono (700000 - t2) (700000 - t1) (by omega) (by omega) (by omega)
      exact ⟨b, a, eb, ea, hab⟩

/-- C8. On a position with current state `st`, writing `tot` for
`nonPawnMaterial[0] + nonPawnMaterial[2]`: `getGamePhase()` returns `0`
whenever `tot >= 700000`, `65536` whenever `tot < 100000`, in every case a
value in the closed range `0..65536`, and it is the same for any other
position whose current state has the same `tot`.  Between the thresholds it
interpolates: the value is within `1/128` above and `1 + 1/128` below
`(700000 - tot) * 65536 / 600000`, it is `65536` at `tot = 100000` and
`32768` at `tot = 400000`; and over all `tot` it never grows when `tot`
grows. -/
theorem getGamePhase_saturating (p : Position) (st : state)
    (h : getActualStateConst p = some st) :
    (700000 ≤ st.nonPawnMaterial.v0 + st.nonPawnMaterial.v2 → getGamePhase p = some 0) ∧
    (st.nonPawnMaterial.v0 + st.nonPawnMaterial.v2 < 100000 → getGamePhase p = some 65536) ∧
    (∃ g : Nat, getGamePhase p = some g ∧ 0 ≤ g ∧ g ≤ 65536) ∧
    (∀ (q : Position) (sq : state), getActualStateConst q = some sq →
      sq.nonPawnMaterial.v0 + sq.nonPawnMaterial.v2
        = st.nonPawnMaterial.v0 + st.nonPawnMaterial.v2 →
      getGamePhase q = getGamePhase p) ∧
    (100000 ≤ st.nonPawnMaterial.v0 + st.nonPawnMaterial.v2 →
      st.nonPawnMaterial.v0 + st.nonPawnMaterial.v2 ≤ 700000 →
      ∃ g : Nat, getGamePhase p = some g ∧
        (g : ℚ) ≤ ((700000 - (st.nonPawnMaterial.v0 + st.nonPawnMaterial.v2) : Int) : ℚ)
            * 65536 / 600000 + 1 / 128 ∧
        ((700000 - (st.nonPawnMaterial.v0 + st.nonPawnMaterial.v2) : Int) : ℚ)
            * 65536 / 600000 - 1 / 128 < (g : ℚ) + 1) ∧
    (st.nonPawnMaterial.v0 + st.nonPawnMaterial.v2 = 100000 →
      getGamePhase p = some 65536) ∧
    (st.nonPawnMaterial.v0 + st.nonPawnMaterial.v2 = 400000 →
      getGamePhase p = some 32768) ∧
    (∀ (q : Position) (sq : state), getActualStateConst q = some sq →
      st.nonPawnMaterial.v0 + st.nonPawnMaterial.v2
        ≤ sq.nonPawnMaterial.v0 + sq.nonPawnMaterial.v2 →
      ∃ gp gq : Nat, getGamePhase p = some gp ∧ getGamePhase q = some gq ∧ gq ≤ gp) := by
  have hp := getGamePhase_unfold p st h
  obtain ⟨c1, c2, g, hg, hle⟩ := phase_cases (st.nonPawnMaterial.v0 + st.nonPawnMaterial.v2)
  obtain ⟨s1, s2, s3⟩ := phase_shape (st.nonPawnMaterial.v0 + st.nonPawnMaterial.v2)
  refine ⟨?_, ?_, ?_, ?_, ?_, ?_, ?_, ?_⟩
  · intro hge
    rw [hp]
    exact c1 hge
  · intro hlt
    rw [hp]
    exact c2 hlt
  · exact ⟨g, by rw [hp]; exact hg, Nat.zero_le g, hle⟩
  · intro q sq hq heq
    rw [hp, getGamePhase_unfold q sq hq, heq]
  · intro hlo hhi
    obtain ⟨g', e', a', b'⟩ := s1 hlo hhi
    exact ⟨g', by rw [hp]; exact e', a', b'⟩
  · intro ht
    rw [hp]
    exact s2 ht
  · intro ht
    rw [hp]
    exact s3 ht
  · intro q sq hq hle'
    obtain ⟨g1, g2, e1, e2, h12⟩ := phase_mono _ _ hle'
    exact ⟨g1, g2, by rw [hp]; exact e1, by rw [getGamePhase_unfold q sq hq]; exact e2, h12⟩

/-- C8, at the sample position (`tot = 400000`), where the value is
`32768`. -/
theorem getGamePhase_saturating_witness :
    getActualStateConst samplePosition = some sampleState ∧
    getGamePhase samplePosition = some 32768 ∧
    (700000 ≤ sampleState.nonPawnMaterial.v0 + sampleState.nonPawnMaterial.v2 →
      getGamePhase samplePosition = some 0) ∧
    (sampleState.nonPawnMaterial.v0 + sampleState.nonPawnMaterial.v2 < 100000 →
      getGamePhase samplePosition = some 65536) ∧
    (∃ g : Nat, getGamePhase samplePosition = some g ∧ 0 ≤ g ∧ g ≤ 65536) ∧
    (∀ (q : Position) (sq : state), getActualStateConst q = some sq →
      sq.nonPawnMaterial.v0 + sq.nonPawnMaterial.v2
        = sampleState.nonPawnMaterial.v0 + sampleState.nonPawnMaterial.v2 →
      getGamePhase q = getGamePhase samplePosition) ∧
    (100000 ≤ sampleState.nonPawnMaterial.v0 + sampleState.nonPawnMaterial.v2 →
      sampleState.nonPawnMaterial.v0 + sampleState.nonPawnMaterial.v2 ≤ 700000 →
      ∃ g : Nat, getGamePhase samplePosition = some g ∧
        (g : ℚ) ≤ ((700000 - (sampleState.nonPawnMaterial.v0
            + sampleState.nonPawnMaterial.v2) : Int) : ℚ) * 65536 / 600000 + 1 / 128 ∧
        ((700000 - (sampleState.nonPawnMaterial.v0
            + sampleState.nonPawnMaterial.v2) : Int) : ℚ) * 65536 / 600000 - 1 / 128
          < (g : ℚ) + 1) ∧
    (sampleState.nonPawnMaterial.v0 + sampleState.nonPawnMaterial.v2 = 100000 →
      getGamePhase samplePosition = some 65536) ∧
    (sampleState.nonPawnMaterial.v0 + sampleState.nonPawnMaterial.v2 = 400000 →
      getGamePhase samplePosition = some 32768) ∧
    (∀ (q : Position) (sq : state), getActualStateConst q = some sq →
      sampleState.nonPawnMaterial.v0 + sampleState.nonPawnMaterial.v2
        ≤ sq.nonPawnMaterial.v0 + sq.nonPawnMaterial.v2 →
      ∃ gp gq : Nat, getGamePhase samplePosition = some gp ∧
        getGamePhase q = some gq ∧ gq ≤ gp) :=
  ⟨by decide,
    (getGamePhase_saturating samplePosition sampleState (by decide)).2.2.2.2.2.2.1
      (by decide),
    getGamePhase_saturating samplePosition sampleState (by decide)⟩

/-! ## C9: capture moves -/

/-- C9. When the destination square of `m` holds the piece class `pc`:
`isCaptureMove(m)` returns `pc != empty || m.isEnPassantMove()`, so it is true
exactly when the destination holds a piece or the move is flagged en passant;
an en-passant move onto an empty destination is a capture; and
`isCaptureMoveOrPromotion(m)` is true exactly when `isCaptureMove(m)` is true
or the move is a promotion. -/
theorem isCaptureMove_iff (T : Tables) (p : Position) (m : Move) (pc : bitboardIndex)
    (h : getPieceAt p m.getTo = some pc) :
    isCaptureMove T p m = some (pc != T.empty || m.isEnPassantMove) ∧
    (isCaptureMove T p m = some true ↔ (pc ≠ T.empty ∨ m.isEnPassantMove = true)) ∧
    (pc = T.empty → m.isEnPassantMove = true → isCaptureMove T p m = some true) ∧
    (∃ b : Bool, isCaptureMove T p m = some b ∧
      isCaptureMoveOrPromotion T p m = some (b || m.isPromotionMove)) ∧
    (isCaptureMoveOrPromotion T p m = some true ↔
      (isCaptureMove T p m = some true ∨ m.isPromotionMove = true)) := by
  unfold getPieceAt at h
  have hc : isCaptureMove T p m = some (pc != T.empty || m.isEnPassantMove) := by
    unfold isCaptureMove
    rw [h]
  have hcp : isCaptureMoveOrPromotion T p m
      = some ((pc != T.empty || m.isEnPassantMove) || m.isPromotionMove) := by
    unfold isCaptureMoveOrPromotion
    rw [hc]
  refine ⟨hc, ?_, ?_, ?_, ?_⟩
  · rw [hc]
    simp
  · intro he hep
    rw [hc, hep]
    simp
  · exact ⟨_, hc, hcp⟩
  · rw [hc, hcp]
    simp

/-- C9, at the sample position and the en-passant capture e5xd6, whose
destination square is empty. -/
theorem isCaptureMove_iff_witness :
    getPieceAt samplePosition sampleEnPassant.getTo = some 0 ∧
    isCaptureMove sampleTables samplePosition sampleEnPassant
      = some ((0 : bitboardIndex) != sampleTables.empty
          || sampleEnPassant.isEnPassantMove) ∧
    (isCaptureMove sampleTables samplePosition sampleEnPassant = some true ↔
      (0 ≠ sampleTables.empty ∨ sampleEnPassant.isEnPassantMove = true)) ∧
    (0 = sampleTables.empty → sampleEnPassant.isEnPassantMove = true →
      isCaptureMove sampleTables samplePosition sampleEnPassant = some true) ∧
    (∃ b : Bool, isCaptureMove sampleTables samplePosition sampleEnPassant = some b ∧
      isCaptureMoveOrPromotion sampleTables samplePosition sampleEnPassant
        = some (b || sampleEnPassant.isPromotionMove)) ∧
    (isCaptureMoveOrPromotion sampleTables samplePosition sampleEnPassant = some true ↔
      (isCaptureMove sampleTables samplePosition sampleEnPassant = some true ∨
        sampleEnPassant.isPromotionMove = true)) :=
  ⟨by decide, isCaptureMove_iff sampleTables samplePosition sampleEnPassant 0 (by decide)⟩

/-! ## C10: the MVV-LVA score -/

/-- A set with more than one member is not empty. -/
theorem moreThanOneBit_ne_zero (b : bitMap) (h : moreThanOneBit b = true) : b ≠ 0 := by
  intro hb
  subst hb
  simp [moreThanOneBit] at h

/-- C11. For every state: `isInCheck()` holds iff `getCheckers()` is not the
empty set; `isInDoubleCheck()` implies `isInCheck()`; `Position::isInCheck()`
is the `isInCheck()` of the current state; and `addCheckers(b)` sets the
checkers to the union of the old set and `b`, member by member, so it removes
no checker and doing it twice is the same as doing it once. -/
theorem checkers_flags (st : state) (b : bitMap) (p : Position) :
    (st.isInCheck = true ↔ st.getCheckers ≠ 0) ∧
    (st.isInDoubleCheck = true → st.isInCheck = true) ∧
    (∀ cur, getActualStateConst p = some cur → isInCheck p = some cur.isInCheck) ∧
    (st.addCheckers b).getCheckers = st.getCheckers ||| b ∧
    (∀ i, (st.addCheckers b).getCheckers.testBit i
      = (st.getCheckers.testBit i || b.testBit i)) ∧
    (∀ i, st.getCheckers.testBit i = true →
      (st.addCheckers b).getCheckers.testBit i = true) ∧
    (st.addCheckers b).addCheckers b = st.addCheckers b := by
  refine ⟨?_, ?_, ?_, rfl, ?_, ?_, ?_⟩
  · simp [state.isInCheck, state.getCheckers]
  · intro h
    have hne := moreThanOneBit_ne_zero st._checkers h
    simp [state.isInCheck, hne]
  · intro cur hcur
    unfold isInCheck
    rw [hcur]
    rfl
  · intro i
    simp [state.addCheckers, state.getCheckers, Nat.testBit_or]
  · intro i hi
    simp only [state.addCheckers, state.getCheckers, Nat.testBit_or] at hi ⊢
    rw [hi]
    rfl
  · simp only [state.addCheckers]
    congr 1
    apply Nat.eq_of_testBit_eq
    intro i
    simp only [Nat.testBit_or]
    cases st._checkers.testBit i <;> cases b.testBit i <;> rfl

/-- C11, at the sample state in double check, adding a checker on e5 (36),
and at the sample position. -/
theorem checkers_flags_witness :
    sampleCheckedState.isInDoubleCheck = true ∧
    (sampleCheckedState.isInCheck = true ↔ sampleCheckedState.getCheckers ≠ 0) ∧
    (sampleCheckedState.isInDoubleCheck = true → sampleCheckedState.isInCheck = true) ∧
    (∀ cur, getActualStateConst samplePosition = some cur →
      isInCheck samplePosition = some cur.isInCheck) ∧
    (sampleCheckedState.addCheckers (2 ^ 36)).getCheckers
      = sampleCheckedState.getCheckers ||| 2 ^ 36 ∧
    (∀ i, (sampleCheckedState.addCheckers (2 ^ 36)).getCheckers.testBit i
      = (sampleCheckedState.getCheckers.testBit i || (2 ^ 36).testBit i)) ∧
    (∀ i, sampleCheckedState.getCheckers.testBit i = true →
      (sampleCheckedState.addCheckers (2 ^ 36)).getCheckers.testBit i = true) ∧
    (sampleCheckedState.addCheckers (2 ^ 36)).addCheckers (2 ^ 36)
      = sampleCheckedState.addCheckers (2 ^ 36) :=
  ⟨by decide, checkers_flags sampleCheckedState (2 ^ 36) samplePosition⟩

/-! ## C12: the search log -/

/-- A decimal digit is printed as one of the ten digit characters. -/
theorem digitChar_mem (k : Nat) (h : k < 10) :
    Nat.digitChar k ∈ ['0', '1', '2', '3', '4', '5', '6', '7', '8', '9'] := by
  interval_cases k <;> decide

/-- Every character of the digits of a number is a digit or was there
before. -/
theorem toDigitsCore_mem (fuel : Nat) :
    ∀ (n : Nat) (ds : List Char) (c : Char), c ∈ Nat.toDigitsCore 10 fuel n ds →
      c ∈ ds ∨ c ∈ ['0', '1', '2', '3', '4', '5', '6', '7', '8', '9'] := by
  induction fuel with
  | zero =>
    intro n ds c h
    simp only [Nat.toDigitsCore] at h
    exact Or.inl h
  | succ f ih =>
    intro n ds c h
    simp only [Nat.toDigitsCore] at h
    have hd := digitChar_mem (n % 10) (Nat.mod_lt n (by norm_num))
    split_ifs at h with h0
    · rcases List.mem_cons.mp h with h1 | h1
      · right
        rw [h1]
        exact hd
      · exact Or.inl h1
    · rcases ih _ _ c h with h1 | h1
      · rcases List.mem_cons.mp h1 with h2 | h2
        · right
          rw [h2]
          exact hd
        · exact Or.inl h2
      · exact Or.inr h1

/-- The text of a number holds only digits and the minus sign. -/
theorem decimal_mem (x : Int) (c : Char) (h : c ∈ decimal x) :
    c ∈ ['-', '0', '1', '2', '3', '4', '5', '6', '7', '8', '9'] := by
  cases x with
  | ofNat n =>
    simp only [decimal, Nat.toDigits] at h
    rcases toDigitsCore_mem _ _ _ c h with h1 | h1
    · simp at h1
    · exact List.mem_cons_of_mem _ h1
  | negSucc n =>
    simp only [decimal, Nat.toDigits] at h
    rcases List.mem_cons.mp h with h0 | h0
    · rw [h0]
      exact List.mem_cons_self _ _
    · rcases toDigitsCore_mem _ _ _ c h0 with h1 | h1
      · simp at h1
      · exact List.mem_cons_of_mem _ h1

/-- The text of a number holds no opening brace. -/
theorem count_open_decimal (x : Int) : List.count '{' (decimal x) = 0 := by
  rw [List.count_eq_zero]
  intro h
  have hm := decimal_mem x _ h
  revert hm
  decide

/-- The text of a number holds no closing brace. -/
theorem count_close_decimal (x : Int) : List.count '}' (decimal x) = 0 := by
  rw [List.count_eq_zero]
  intro h
  have hm := decimal_mem x _ h
  revert hm
  decide

/-- The indentation loop appends `k` tabs. -/
theorem indentLoop_log (k : Nat) :
    ∀ lw : logWriter, (indentLoop lw k)._log = lw._log ++ List.replicate k '\t' := by
  induction k with
  | zero =>
    intro lw
    simp [indentLoop]
  | succ k ih =>
    intro lw
    simp only [indentLoop]
    rw [ih]
    simp [logWriter.writeChar, List.replicate_succ]

/-- Method `_indentate` appends a newline and `k` tabs. -/
theorem indentate_log (lw : logWriter) (k : Nat) :
    (logNode._indentate lw k)._log = lw._log ++ '\n' :: List.replicate k '\t' := by
  unfold logNode._indentate
  rw [indentLoop_log]
  simp [logWriter.writeChar]

/-- The constructor appends the opening line and records the ply. -/
theorem create_log (lw : logWriter) (p : Nat) (depth : Int) (alpha beta : Score) :
    (logNode.create lw p depth alpha beta)._lw._log
      = lw._log ++ nodeHeader p depth alpha beta ∧
    (logNode.create lw p depth alpha beta)._ply = p := by
  refine ⟨?_, rfl⟩
  simp only [logNode.create, logWriter.writeChar, logWriter.writeNumber, indentate_log,
    nodeHeader]
  simp [List.append_assoc]

/-- The destructor appends the closing line. -/
theorem destroy_log (n : logNode) :
    n.destroy._log = n._lw._log ++ nodeFooter n._ply := by
  simp only [logNode.destroy, logWriter.writeChar, indentate_log, nodeFooter]
  simp [List.append_assoc]

/-- Every event writer appends one line, at the indentation `_ply + 1` taken
in `unsigned int`, and keeps the ply. -/
theorem call_log (L : LogTables) (n : logNode) (e : LogEvent) :
    (n.call L e)._lw._log
      = n._lw._log ++ eventLine L ((n._ply + 1) % UINT_W) e ∧
    (n.call L e)._ply = n._ply := by
  cases e <;>
    simp [logNode.call, logNode.testIsDraw, logNode.testMateDistancePruning,
      logNode.testCheckTablebase, logNode.testCanUseTT, logNode.testStandPat,
      logNode.testMated, logNode.testMove, logNode.skipMove, logNode.raisedAlpha,
      logNode.isImproving, logNode.raisedbestScore, logNode.logReturnValue,
      logNode.logTTprobe, logNode.calcStaticEval, logNode.refineEval,
      logNode.calcBestScore, logNode.indentEvent, logWriter.writeString,
      logWriter.writeNumber, logWriter.writeMove, indentate_log, eventLine,
      LogEvent.message, List.append_assoc]

/-- A sequence of event calls appends the lines of the events in order. -/
theorem calls_log (L : LogTables) (events : List LogEvent) :
    ∀ n : logNode,
      (events.foldl (fun n e => n.call L e) n)._lw._log
        = n._lw._log
          ++ (events.map (eventLine L ((n._ply + 1) % UINT_W))).flatten ∧
      (events.foldl (fun n e => n.call L e) n)._ply = n._ply := by
  induction events with
  | nil =>
    intro n
    simp
  | cons e es ih =>
    intro n
    obtain ⟨h1, h2⟩ := call_log L n e
    obtain ⟨h3, h4⟩ := ih (n.call L e)
    simp only [List.foldl_cons, List.map_cons, List.flatten_cons]
    rw [h3, h4, h1, h2]
    simp [List.append_assoc]

/-- No message holds an opening brace when the text of a move holds none. -/
theorem count_open_message (L : LogTables)
    (h : ∀ m b, List.count '{' (L.displayUci m b) = 0) (e : LogEvent) :
    List.count '{' (e.message L) = 0 := by
  cases e <;>
    simp only [LogEvent.message, List.count_append, count_open_decimal, h] <;> decide

/-- No message holds a closing brace when the text of a move holds none. -/
theorem count_close_message (L : LogTables)
    (h : ∀ m b, List.count '}' (L.displayUci m b) = 0) (e : LogEvent) :
    List.count '}' (e.message L) = 0 := by
  cases e <;>
    simp only [LogEvent.message, List.count_append, count_close_decimal, h] <;> decide

/-- Lines without a character make a text without it. -/
theorem count_lines (c : Char) (f : LogEvent → List Char)
    (h : ∀ e, List.count c (f e) = 0) (events : List LogEvent) :
    List.count c (events.map f).flatten = 0 := by
  induction events with
  | nil => simp
  | cons e es ih =>
    simp only [List.map_cons, List.flatten_cons, List.count_append, h e, ih]

/-- The opening line holds one opening brace and no closing brace. -/
theorem count_header (p : Nat) (depth : Int) (alpha beta : Score) :
    List.count '{' (nodeHeader p depth alpha beta) = 1 ∧
    List.count '}' (nodeHeader p depth alpha beta) = 0 := by
  constructor
  · simp [nodeHeader, List.count_append, List.count_cons, List.count_replicate,
      count_open_decimal]
  · simp [nodeHeader, List.count_append, List.count_cons, List.count_replicate,
      count_close_decimal]

/-- The closing line holds one closing brace and no opening brace. -/
theorem count_footer (p : Nat) :
    List.count '{' (nodeFooter p) = 0 ∧ List.count '}' (nodeFooter p) = 1 := by
  constructor
  · simp [nodeFooter, List.count_append, List.count_cons, List.count_replicate]
  · simp [nodeFooter, List.count_append, List.count_cons, List.count_replicate]

/-- The line of an event holds a brace only if its message does. -/
theorem count_eventLine (L : LogTables) (k : Nat) (e : LogEvent) :
    List.count '{' (eventLine L k e) = List.count '{' (e.message L) ∧
    List.count '}' (eventLine L k e) = List.count '}' (e.message L) := by
  constructor
  · simp only [eventLine, List.count_append, List.count_cons, List.count_replicate]
    have h1 : (('\n' == '{') = true) = False := by decide
    have h2 : (('\t' == '{') = true) = False := by decide
    simp only [h1, h2, if_false]
    omega
  · simp only [eventLine, List.count_append, List.count_cons, List.count_replicate]
    have h1 : (('\n' == '}') = true) = False := by decide
    have h2 : (('\t' == '}') = true) = False := by decide
    simp only [h1, h2, if_false]
    omega

/-- Text left by the life of one node, in closed form. -/
theorem runNode_log (L : LogTables) (lw : logWriter) (p : Nat) (depth : Int)
    (alpha beta : Score) (events : List LogEvent) :
    (runNode L lw p depth alpha beta events)._log
      = lw._log ++ nodeHeader p depth alpha beta
        ++ (events.map (eventLine L ((p + 1) % UINT_W))).flatten
        ++ nodeFooter p := by
  unfold runNode
  obtain ⟨h1, h2⟩ := create_log lw p depth alpha beta
  obtain ⟨h3, h4⟩ := calls_log L events (logNode.create lw p depth alpha beta)
  rw [destroy_log, h3, h4, h1, h2]

/-- File letters and rank digits are no braces. -/
theorem sample_square_chars (k : Nat) (hk : k < 8) :
    "abcdefgh".toList.getD k 'a' ≠ '{' ∧ "abcdefgh".toList.getD k 'a' ≠ '}' ∧
    "12345678".toList.getD k '1' ≠ '{' ∧ "12345678".toList.getD k '1' ≠ '}' := by
  interval_cases k <;> decide

/-- The sample text of a move holds no brace. -/
theorem sample_displayUci_braces (m : Move) (b : Bool) :
    List.count '{' (sampleLogTables.displayUci m b) = 0 ∧
    List.count '}' (sampleLogTables.displayUci m b) = 0 := by
  have h1 := sample_square_chars (m.bFrom % 8) (Nat.mod_lt _ (by norm_num))
  have h2 := sample_square_chars (m.bFrom / 8 % 8) (Nat.mod_lt _ (by norm_num))
  have h3 := sample_square_chars (m.bTo % 8) (Nat.mod_lt _ (by norm_num))
  have h4 := sample_square_chars (m.bTo / 8 % 8) (Nat.mod_lt _ (by norm_num))
  constructor
  · rw [List.count_eq_zero]
    simp only [sampleLogTables, List.mem_cons, List.mem_singleton, List.not_mem_nil,
      or_false]
    intro h
    rcases h with h | h | h | h
    · exact h1.1 h.symm
    · exact h2.2.2.1 h.symm
    · exact h3.1 h.symm
    · exact h4.2.2.1 h.symm
  · rw [List.count_eq_zero]
    simp only [sampleLogTables, List.mem_cons, List.mem_singleton, List.not_mem_nil,
      or_false]
    intro h
    rcases h with h | h | h | h
    · exact h1.2.1 h.symm
    · exact h2.2.2.2 h.symm
    · exact h3.2.1 h.symm
    · exact h4.2.2.2 h.symm

/-- C12. For every ply `p`, depth, bounds and sequence of event calls, the
life of a node (construction, the calls, destruction) appends to the log: a
newline, exactly `p` tabs and `{p,depth,alpha,beta;`; then for every event, in
order, a newline, the tabs of the event indentation and its message; then a
newline, exactly `p` tabs and the closing brace.  The event indentation is
`p + 1` computed in `unsigned int`, which is exactly `p + 1` tabs for every
`p` with `p + 1 < 2^32`.  The opening line holds exactly one opening brace and
the closing line exactly one closing brace, both right after a newline and
`p` tabs; and when the text of a move holds no brace, these are the only
braces the node adds to the log. -/
theorem runNode_text (L : LogTables) (lw : logWriter) (p : Nat) (depth : Int)
    (alpha beta : Score) (events : List LogEvent) :
    (runNode L lw p depth alpha beta events)._log
      = lw._log
        ++ ('\n' :: List.replicate p '\t' ++ '{' :: decimal (p : Int) ++ ',' :: decimal depth
            ++ ',' :: decimal alpha ++ ',' :: decimal beta ++ [';'])
        ++ (events.map
            (fun e => '\n' :: List.replicate ((p + 1) % UINT_W) '\t' ++ e.message L)).flatten
        ++ ('\n' :: List.replicate p '\t' ++ ['}']) ∧
    (p + 1 < UINT_W →
      (runNode L lw p depth alpha beta events)._log
        = lw._log
          ++ ('\n' :: List.replicate p '\t' ++ '{' :: decimal (p : Int)
              ++ ',' :: decimal depth ++ ',' :: decimal alpha ++ ',' :: decimal beta ++ [';'])
          ++ (events.map
              (fun e => '\n' :: List.replicate (p + 1) '\t' ++ e.message L)).flatten
          ++ ('\n' :: List.replicate p '\t' ++ ['}'])) ∧
    List.count '{' ('\n' :: List.replicate p '\t' ++ '{' :: decimal (p : Int)
      ++ ',' :: decimal depth ++ ',' :: decimal alpha ++ ',' :: decimal beta ++ [';']) = 1 ∧
    List.count '}' ('\n' :: List.replicate p '\t' ++ ['}']) = 1 ∧
    ((∀ m b, List.count '{' (L.displayUci m b) = 0 ∧
        List.count '}' (L.displayUci m b) = 0) →
      List.count '{' (runNode L lw p depth alpha beta events)._log
        = List.count '{' lw._log + 1 ∧
      List.count '}' (runNode L lw p depth alpha beta events)._log
        = List.count '}' lw._log + 1) := by
  have hlog := runNode_log L lw p depth alpha beta events
  obtain ⟨ho, hc⟩ := count_header p depth alpha beta
  obtain ⟨fo, fc⟩ := count_footer p
  refine ⟨hlog, ?_, ho, fc, ?_⟩
  · intro hp
    have hmod : (p + 1) % UINT_W = p + 1 := Nat.mod_eq_of_lt hp
    rw [hmod] at hlog
    exact hlog
  · intro hL
    have lo : List.count '{' (events.map (eventLine L ((p + 1) % UINT_W))).flatten = 0 :=
      count_lines _ _ (fun e => by
        rw [(count_eventLine L _ e).1]
        exact count_open_message L (fun m b => (hL m b).1) e) events
    have lc : List.count '}' (events.map (eventLine L ((p + 1) % UINT_W))).flatten = 0 :=
      count_lines _ _ (fun e => by
        rw [(count_eventLine L _ e).2]
        exact count_close_message L (fun m b => (hL m b).2) e) events
    rw [hlog]
    constructor
    · rw [List.count_append, List.count_append, List.count_append, ho, fo, lo]
    · rw [List.count_append, List.count_append, List.count_append, hc, fc, lc]

/-- C12, at the sample node (ply 2, depth 5, bounds -100 and 100, three
events) on an empty log: the text, and its braces. -/
theorem runNode_text_witness :
    (runNode sampleLogTables ⟨[]⟩ 2 5 (-100) 100 sampleEvents)._log
      = "\n\t\t\x7b2,5,-100,100;\n\t\t\ttestIsDraw\n\t\t\ttesting move e5d6\n\t\t\treturn: -25\n\t\t\x7d".toList ∧
    List.count '{' (runNode sampleLogTables ⟨[]⟩ 2 5 (-100) 100 sampleEvents)._log
      = List.count '{' (⟨[]⟩ : logWriter)._log + 1 ∧
    List.count '}' (runNode sampleLogTables ⟨[]⟩ 2 5 (-100) 100 sampleEvents)._log
      = List.count '}' (⟨[]⟩ : logWriter)._log + 1 :=
  ⟨by with_unfolding_all decide,
    (runNode_text sampleLogTables ⟨[]⟩ 2 5 (-100) 100 sampleEvents).2.2.2.2
      sample_displayUci_braces⟩

end Vajolet
